import Mathlib

/-!
# Verification of the k6 performance-test runner (`main.js`, `validators.js`,
`config.js`, `endpoints.js`)

This file gives a shallow embedding of the request-execution and validation
pipeline of the repository and proves / refutes the frozen claims about it.

Modelling conventions:
* JavaScript values appearing in request/response content are modelled by
  `JsVal`.  Numbers are modelled as integers (the configuration data and the
  claims only involve integral numbers; IEEE floats and `NaN` are out of
  scope).  Object identity (reference equality) is not modelled: `jsEq`
  returns `false` on arrays/objects, matching the fact that two distinct
  literals are never `===` in JavaScript.
* `JSON.stringify` / `JSON.parse` are modelled by `stringifyVal` / `jsonParse`
  over lists of characters.  The parser accepts the whitespace-free JSON that
  `JSON.stringify` emits (the only strings ever parsed by the claims are
  stringifier output or concrete literals).
* Host primitives with no arithmetic content (regex matching, `Date.parse`,
  `new URL`, `open`, `encodeURIComponent`) are abstracted into a `JsPrims`
  record that is threaded through the definitions; theorems quantify over it.
* A thrown JavaScript exception is modelled by `Except.error` with a
  constructor-tagged `JsError` (the message text itself is not load-bearing,
  except the missing-stored-key and unsupported-body-type messages, which keep
  their payload).
-/

/-- A JavaScript runtime error, tagged by what raised it. -/
inductive JsError where
  /-- `TypeError` (property access / call on `undefined`, etc.). -/
  | typeError : JsError
  /-- `SyntaxError` from `JSON.parse`. -/
  | syntaxError : JsError
  /-- `new Error("Stored value '<key>' not found")` thrown by the replace
  callback in `prepareRequestBody` (main.js line 101). -/
  | missingStoredKey (key : String) : JsError
  /-- `new Error("Unsupported body type: <type>")` (main.js line 129). -/
  | unsupportedBodyType (t : String) : JsError
deriving DecidableEq, Repr

/-- JavaScript values occurring as request/response content.  Numbers are
modelled as integers. -/
inductive JsVal where
  | str (s : String) : JsVal
  | num (n : Int) : JsVal
  | bool (b : Bool) : JsVal
  | null : JsVal
  | undefined : JsVal
  | arr (elems : List JsVal) : JsVal
  | obj (members : List (String × JsVal)) : JsVal
deriving Repr

/-- Structural decidable equality for `JsVal`. -/
def JsVal.beq : JsVal → JsVal → Bool
  | .str s, .str t => s = t
  | .num m, .num n => m = n
  | .bool a, .bool b => a = b
  | .null, .null => true
  | .undefined, .undefined => true
  | .arr xs, .arr ys => beqList xs ys
  | .obj xs, .obj ys => beqMembers xs ys
  | _, _ => false
where
  beqList : List JsVal → List JsVal → Bool
    | [], [] => true
    | x :: xs, y :: ys => x.beq y && beqList xs ys
    | _, _ => false
  beqMembers : List (String × JsVal) → List (String × JsVal) → Bool
    | [], [] => true
    | (k, x) :: xs, (l, y) :: ys => k = l && x.beq y && beqMembers xs ys
    | _, _ => false

/-- JavaScript truthiness (`!v` in the source tests for these values). -/
def jsFalsy : JsVal → Bool
  | .null => true
  | .undefined => true
  | .bool b => !b
  | .num n => n = 0
  | .str s => s = ""
  | _ => false

/-- `value === other` / `SameValueZero` for the primitive constructors.
Arrays and objects compare by reference in JavaScript; distinct structural
values are never identical, so the model conservatively returns `false`. -/
def jsEq : JsVal → JsVal → Bool
  | .str s, .str t => s = t
  | .num m, .num n => m = n
  | .bool a, .bool b => a = b
  | .null, .null => true
  | .undefined, .undefined => true
  | _, _ => false

/-- `'0' + d` for a decimal digit. -/
def decDigitChar (d : Nat) : Char := Char.ofNat (48 + d)

/-- Decimal digits of a natural number, most significant first. -/
def natToChars (n : Nat) : List Char :=
  if _h : n < 10 then [decDigitChar n]
  else natToChars (n / 10) ++ [decDigitChar (n % 10)]
termination_by n
decreasing_by
  exact Nat.div_lt_self (by omega) (by omega)

/-- Decimal representation of an integer (as `String(n)` / `JSON.stringify`
produce it). -/
def intToChars (n : Int) : List Char :=
  if n < 0 then '-' :: natToChars n.natAbs else natToChars n.toNat

/-- Lowercase hexadecimal digit. -/
def hexDigitChar (d : Nat) : Char :=
  if d < 10 then Char.ofNat (48 + d) else Char.ofNat (87 + d)

/-- JSON string escaping of one character, exactly as `JSON.stringify` does
it: `"` and `\` and the named control escapes get a short form, all other
control characters a `\u00xx` form, everything else is verbatim. -/
def escapeChar (c : Char) : List Char :=
  if c = '"' then ['\\', '"']
  else if c = '\\' then ['\\', '\\']
  else if c = '\n' then ['\\', 'n']
  else if c = '\r' then ['\\', 'r']
  else if c = '\t' then ['\\', 't']
  else if c = '\x08' then ['\\', 'b']
  else if c = '\x0c' then ['\\', 'f']
  else if c.toNat < 32 then
    ['\\', 'u', '0', '0', hexDigitChar (c.toNat / 16), hexDigitChar (c.toNat % 16)]
  else [c]

/-- Escape a whole string body. -/
def escapeList : List Char → List Char
  | [] => []
  | c :: rest => escapeChar c ++ escapeList rest

/-- A JSON string literal: `"` body `"`. -/
def quoteChars (s : String) : List Char :=
  '"' :: escapeList s.data ++ ['"']

/-- Comma-join a list of already-rendered pieces. -/
def joinComma : List (List Char) → List Char
  | [] => []
  | [x] => x
  | x :: rest => x ++ ',' :: joinComma rest

mutual
/-- `JSON.stringify` (whitespace-free form).  Returns `none` exactly when the
value is `undefined` (where `JSON.stringify` returns `undefined`, not a
string). -/
def stringifyVal : JsVal → Option (List Char)
  | .undefined => none
  | .null => some ['n', 'u', 'l', 'l']
  | .bool true => some ['t', 'r', 'u', 'e']
  | .bool false => some ['f', 'a', 'l', 's', 'e']
  | .num n => some (intToChars n)
  | .str s => some (quoteChars s)
  | .arr xs => some ('[' :: joinComma (stringifyElems xs) ++ [']'])
  | .obj kvs => some ('{' :: joinComma (stringifyMembers kvs) ++ ['}'])

/-- Array elements: `undefined` elements render as `null` (as in
`JSON.stringify`). -/
def stringifyElems : List JsVal → List (List Char)
  | [] => []
  | x :: xs =>
    (match stringifyVal x with
     | some cs => cs
     | none => ['n', 'u', 'l', 'l']) :: stringifyElems xs

/-- Object members: members whose value is `undefined` are dropped (as in
`JSON.stringify`). -/
def stringifyMembers : List (String × JsVal) → List (List Char)
  | [] => []
  | (k, v) :: rest =>
    match stringifyVal v with
    | some cs => (quoteChars k ++ ':' :: cs) :: stringifyMembers rest
    | none => stringifyMembers rest
end

/-- No `undefined` anywhere inside: the value survives a
`JSON.stringify`/`JSON.parse` round trip structurally intact. -/
def serializable : JsVal → Bool
  | .undefined => false
  | .arr xs => serializableElems xs
  | .obj kvs => serializableMembers kvs
  | _ => true
where
  serializableElems : List JsVal → Bool
    | [] => true
    | x :: xs => serializable x && serializableElems xs
  serializableMembers : List (String × JsVal) → Bool
    | [] => true
    | (_, v) :: rest => serializable v && serializableMembers rest

/-- Decode one hexadecimal digit. -/
def hexVal (c : Char) : Option Nat :=
  if 48 ≤ c.toNat ∧ c.toNat ≤ 57 then some (c.toNat - 48)
  else if 97 ≤ c.toNat ∧ c.toNat ≤ 102 then some (c.toNat - 87)
  else if 65 ≤ c.toNat ∧ c.toNat ≤ 70 then some (c.toNat - 55)
  else none

/-- Decode a two-character named escape (`\n`, `\"`, ...). -/
def unescapeChar (c : Char) : Option Char :=
  if c = '"' then some '"'
  else if c = '\\' then some '\\'
  else if c = '/' then some '/'
  else if c = 'n' then some '\n'
  else if c = 'r' then some '\r'
  else if c = 't' then some '\t'
  else if c = 'b' then some '\x08'
  else if c = 'f' then some '\x0c'
  else none

/-- Parse the body of a JSON string literal (everything after the opening
quote), returning the decoded characters and the input after the closing
quote. -/
def parseStringBody (l : List Char) : Option (List Char × List Char) :=
  match l with
  | [] => none
  | c :: rest =>
    if c = '"' then some ([], rest)
    else if c = '\\' then
      match rest with
      | [] => none
      | e :: rest' =>
        if e = 'u' then
          match rest' with
          | a :: b :: c2 :: d :: rest'' =>
            match hexVal a, hexVal b, hexVal c2, hexVal d with
            | some ha, some hb, some hc, some hd =>
              match parseStringBody rest'' with
              | some (s, r) =>
                some (Char.ofNat (((ha * 16 + hb) * 16 + hc) * 16 + hd) :: s, r)
              | none => none
            | _, _, _, _ => none
          | _ => none
        else
          match unescapeChar e with
          | some ec =>
            match parseStringBody rest' with
            | some (s, r) => some (ec :: s, r)
            | none => none
          | none => none
    else
      match parseStringBody rest with
      | some (s, r) => some (c :: s, r)
      | none => none
termination_by l.length
decreasing_by all_goals simp_all [List.length] <;> omega

/-- Is `c` a decimal digit? -/
def isDecDigit (c : Char) : Bool := 48 ≤ c.toNat && c.toNat ≤ 57

/-- Accumulate decimal digits into a natural number. -/
def digitsToNat (ds : List Char) : Nat :=
  ds.foldl (fun a c => a * 10 + (c.toNat - 48)) 0

/-- Parse a JSON integer (optional minus sign, then digits). -/
def parseNumber (l : List Char) : Option (Int × List Char) :=
  match l with
  | [] => none
  | c :: rest =>
    if c = '-' then
      let ds := rest.takeWhile isDecDigit
      if ds.isEmpty then none
      else some (-(digitsToNat ds : Int), rest.dropWhile isDecDigit)
    else
      let ds := (c :: rest).takeWhile isDecDigit
      if ds.isEmpty then none
      else some ((digitsToNat ds : Int), (c :: rest).dropWhile isDecDigit)

/-- One step of the value parser, parameterised by the element/member
continuation parsers (used to tie the fuelled knot below). -/
def parseValStep (pe : List Char → Option (List JsVal × List Char))
    (pm : List Char → Option (List (String × JsVal) × List Char))
    (l : List Char) : Option (JsVal × List Char) :=
  match l with
  | [] => none
  | c :: rest =>
    if c = '"' then
      match parseStringBody rest with
      | some (cs, r) => some (.str (String.mk cs), r)
      | none => none
    else if c = '[' then
      match rest with
      | ']' :: r => some (.arr [], r)
      | _ =>
        match pe rest with
        | some (xs, r) => some (.arr xs, r)
        | none => none
    else if c = '{' then
      match rest with
      | '}' :: r => some (.obj [], r)
      | _ =>
        match pm rest with
        | some (kvs, r) => some (.obj kvs, r)
        | none => none
    else if c = 't' then
      match rest with
      | 'r' :: 'u' :: 'e' :: r => some (.bool true, r)
      | _ => none
    else if c = 'f' then
      match rest with
      | 'a' :: 'l' :: 's' :: 'e' :: r => some (.bool false, r)
      | _ => none
    else if c = 'n' then
      match rest with
      | 'u' :: 'l' :: 'l' :: r => some (.null, r)
      | _ => none
    else
      match parseNumber l with
      | some (n, r) => some (.num n, r)
      | none => none

/-- One step of the array-element list parser (called after `[` when the array
is non-empty): value, then `,` and more elements or the closing `]`. -/
def parseElemsStep (pv : List Char → Option (JsVal × List Char))
    (pe : List Char → Option (List JsVal × List Char))
    (l : List Char) : Option (List JsVal × List Char) :=
  match pv l with
  | some (v, r) =>
    match r with
    | ',' :: r' =>
      match pe r' with
      | some (xs, r'') => some (v :: xs, r'')
      | none => none
    | ']' :: r' => some ([v], r')
    | _ => none
  | none => none

/-- One step of the object-member list parser (called after `{` when the
object is non-empty): `"key":value`, then `,` and more members or `}`. -/
def parseMembersStep (pv : List Char → Option (JsVal × List Char))
    (pm : List Char → Option (List (String × JsVal) × List Char))
    (l : List Char) : Option (List (String × JsVal) × List Char) :=
  match l with
  | '"' :: rest =>
    match parseStringBody rest with
    | some (k, r) =>
      match r with
      | ':' :: r' =>
        match pv r' with
        | some (v, r'') =>
          match r'' with
          | ',' :: r3 =>
            match pm r3 with
            | some (kvs, r4) => some ((String.mk k, v) :: kvs, r4)
            | none => none
          | '}' :: r3 => some ([(String.mk k, v)], r3)
          | _ => none
        | none => none
      | _ => none
    | none => none
  | _ => none

mutual
/-- Fuelled JSON value parser over the whitespace-free grammar that
`stringifyVal` emits. -/
def parseVal : Nat → List Char → Option (JsVal × List Char)
  | 0, _ => none
  | fuel + 1, l => parseValStep (parseElems fuel) (parseMembers fuel) l

/-- Fuelled non-empty array element list parser. -/
def parseElems : Nat → List Char → Option (List JsVal × List Char)
  | 0, _ => none
  | fuel + 1, l => parseElemsStep (parseVal fuel) (parseElems fuel) l

/-- Fuelled non-empty object member list parser. -/
def parseMembers : Nat → List Char → Option (List (String × JsVal) × List Char)
  | 0, _ => none
  | fuel + 1, l => parseMembersStep (parseVal fuel) (parseMembers fuel) l
end

/-- `JSON.parse` on the whitespace-free grammar: the whole input must be
consumed. -/
def jsonParse (l : List Char) : Option JsVal :=
  match parseVal (l.length + 1) l with
  | some (v, []) => some v
  | _ => none

mutual
/-- JavaScript `String(v)` coercion (used by `String.prototype.replace` on the
value returned from the replace callback, and by validators that coerce their
argument). -/
def jsToString : JsVal → String
  | .str s => s
  | .num n => String.mk (intToChars n)
  | .bool true => "true"
  | .bool false => "false"
  | .null => "null"
  | .undefined => "undefined"
  | .arr xs => String.mk (jsToStringElems xs)
  | .obj _ => "[object Object]"

/-- `Array.prototype.toString` body: elements joined with `,`, where `null`
and `undefined` elements render as the empty string. -/
def jsToStringElems : List JsVal → List Char
  | [] => []
  | x :: xs =>
    (match x with
     | .null => []
     | .undefined => []
     | v => (jsToString v).data) ++
    (match xs with
     | [] => []
     | _ => ',' :: jsToStringElems xs)
end

/-- The nine characters `${stored.` opening a placeholder (the literal part of
the pattern `\${stored\.(.*?)}` in main.js line 99). -/
def placeholderHead : List Char := "$\x7bstored.".data

/-- Scan for the first closing brace, as the lazy `(.*?)}` does: `.` does not
match a newline, so a newline before any `}` means no match at this start
position.  Returns the captured key characters and the input after `}`. -/
def findClose : (l : List Char) → Option (List Char × List Char)
  | [] => none
  | c :: rest =>
    if c = '\x7d' then some ([], rest)
    else if c = '\n' then none
    else
      match findClose rest with
      | some (k, r) => some (c :: k, r)
      | none => none

theorem findClose_length : ∀ (l k r : List Char), findClose l = some (k, r) →
    r.length < l.length := by
  intro l
  induction l with
  | nil => intro k r h; simp [findClose] at h
  | cons c rest ih =>
    intro k r h
    simp only [findClose] at h
    split at h
    · simp only [Option.some.injEq, Prod.mk.injEq] at h
      obtain ⟨-, hr⟩ := h
      subst hr
      simp only [List.length_cons]
      omega
    · split at h
      · exact absurd h (by simp)
      · cases hfc : findClose rest with
        | none => rw [hfc] at h; simp at h
        | some p =>
          rw [hfc] at h
          obtain ⟨k2, r2⟩ := p
          simp only [Option.some.injEq, Prod.mk.injEq] at h
          obtain ⟨-, hr⟩ := h
          subst hr
          have := ih k2 r2 hfc
          simp only [List.length_cons]
          omega

/-- `storedData[key]` lookup (`hasOwnProperty` then index). -/
def lookupStored (sd : List (String × JsVal)) (k : String) : Option JsVal :=
  sd.lookup k

/-- The global regex replace
`s.replace(/\${stored\.(.*?)}/g, (match, key) => ...)` of main.js lines
99–104: scans left to right; at a position where the nine-character opening
matches and a closing brace follows, substitutes `String(storedData[key])` and
resumes after the match (the replacement text is not rescanned); throws
`Error` when the key is absent from stored data. -/
def replaceStoredAux (stored : List (String × JsVal)) : (l : List Char) →
    Except JsError (List Char)
  | [] => .ok []
  | c :: rest =>
    if placeholderHead.isPrefixOf (c :: rest) then
      match _hfc : findClose ((c :: rest).drop 9) with
      | some (k, after) =>
        match lookupStored stored (String.mk k) with
        | some v =>
          match replaceStoredAux stored after with
          | .ok t => .ok ((jsToString v).data ++ t)
          | .error e => .error e
        | none => .error (.missingStoredKey (String.mk k))
      | none =>
        match replaceStoredAux stored rest with
        | .ok t => .ok (c :: t)
        | .error e => .error e
    else
      match replaceStoredAux stored rest with
      | .ok t => .ok (c :: t)
      | .error e => .error e
termination_by l => l.length
decreasing_by
  · have h1 := findClose_length _ _ _ _hfc
    rw [List.length_drop] at h1
    simp only [List.length_cons] at h1 ⊢
    omega
  · simp only [List.length_cons]
    omega
  · simp only [List.length_cons]
    omega

/-- The keys of the matches the regex scan finds, in scan order. -/
def placeholderKeys : (l : List Char) → List String
  | [] => []
  | c :: rest =>
    if placeholderHead.isPrefixOf (c :: rest) then
      match _hfc : findClose ((c :: rest).drop 9) with
      | some (k, after) => String.mk k :: placeholderKeys after
      | none => placeholderKeys rest
    else placeholderKeys rest
termination_by l => l.length
decreasing_by
  · have h1 := findClose_length _ _ _ _hfc
    rw [List.length_drop] at h1
    simp only [List.length_cons] at h1 ⊢
    omega
  · simp only [List.length_cons]
    omega
  · simp only [List.length_cons]
    omega

/-- The template substitution of `prepareRequestBody` (main.js lines 98–105):
`JSON.parse(JSON.stringify(content).replace(/\${stored\.(.*?)}/g, ...))`. -/
def substituteStored (stored : List (String × JsVal)) (content : JsVal) :
    Except JsError JsVal :=
  match stringifyVal content with
  | none => .error .typeError
  | some l =>
    match replaceStoredAux stored l with
    | .error e => .error e
    | .ok l' =>
      match jsonParse l' with
      | some v => .ok v
      | none => .error .syntaxError

/-- Host primitives abstracted away from the embedding: regex matching
(`new RegExp(pattern, flags).test(input)`), `Date.parse` validity, `new URL`
validity, k6's `open`, `encodeURIComponent`, and the source-text coercion of
a function value.  Theorems quantify over this record. -/
structure JsPrims where
  regexTest : String → String → String → Bool
  dateParseValid : String → Bool
  urlValid : String → Bool
  openFile : String → String
  encodeURIComponent : String → String
  fnToString : (JsVal → Bool) → String

/-- A concrete instantiation of the host primitives, used by witnesses and
counterexamples (none of them depends on real regex/date/url behaviour). -/
def trivPrims : JsPrims :=
  { regexTest := fun _ _ _ => false
    dateParseValid := fun _ => false
    urlValid := fun _ => false
    openFile := fun _ => ""
    encodeURIComponent := fun s => s
    fnToString := fun _ => "function" }

/-- The runtime value a validator receives as its second argument: a plain
value, a function (the `custom` validator's predicate), or `undefined`. -/
inductive JsOpt where
  | val (v : JsVal)
  | fn (f : JsVal → Bool)
  | undef

/-- The regex source of `validators.email` (validators.js line 23). -/
def emailPattern : String := "^[^\\s@]+@[^\\s@]+\\.[^\\s@]+$"

/-- The regex source of `validators.phone` (validators.js line 37). -/
def phonePattern : String := "^\\+?[\\d\\s\\(\\)\\-]\x7b8,\x7d$"

/-- The regex source of `validators.uuid` (validators.js line 38, flag `i`). -/
def uuidPattern : String :=
  "^[0-9a-f]\x7b8\x7d-[0-9a-f]\x7b4\x7d-4[0-9a-f]\x7b3\x7d-[89ab][0-9a-f]\x7b3\x7d-[0-9a-f]\x7b12\x7d$"

/-- Is the character list `a` a contiguous substring of `b`
(`String.prototype.includes`)? -/
def charsInfix (a b : List Char) : Bool :=
  b.tails.any (fun t => a.isPrefixOf t)

/-- The validator registry of validators.js lines 21–42 (`validators[name]`):
`none` exactly for unregistered names.  Each predicate returns
`Except.error` where the JavaScript function would throw:
* `enum` calls `allowedValues.includes(value)`, a `TypeError` when
  `allowedValues` is `undefined`, `null`, a number, a boolean or a function
  (membership uses `===`/SameValueZero, `jsEq`; `includes` on a string
  option searches for the coerced value as a substring);
* `regex` builds `new RegExp(pattern)`: an `undefined` pattern compiles to
  the match-everything empty regex (modelled as source `""`), any other
  option is coerced to its string form;
* `custom` calls `validatorFn(value)`: a `TypeError` when the option is not
  a function. -/
def validatorsLookup (prims : JsPrims) :
    String → Option (JsVal → JsOpt → Except JsError Bool)
  | "text" => some fun value _ => .ok (match value with | .str _ => true | _ => false)
  | "email" => some fun value _ => .ok (prims.regexTest emailPattern "" (jsToString value))
  | "number" => some fun value _ => .ok (match value with | .num _ => true | _ => false)
  | "boolean" => some fun value _ => .ok (match value with | .bool _ => true | _ => false)
  | "date" => some fun value _ => .ok (prims.dateParseValid (jsToString value))
  | "url" => some fun value _ => .ok (prims.urlValid (jsToString value))
  | "array" => some fun value _ => .ok (match value with | .arr _ => true | _ => false)
  | "object" => some fun value _ => .ok (match value with | .obj _ => true | _ => false)
  | "phone" => some fun value _ => .ok (prims.regexTest phonePattern "" (jsToString value))
  | "uuid" => some fun value _ => .ok (prims.regexTest uuidPattern "i" (jsToString value))
  | "enum" => some fun value opts =>
      match opts with
      | .val (.arr xs) => .ok (xs.any (fun x => jsEq x value))
      | .val (.str s) => .ok (charsInfix (jsToString value).data s.data)
      | _ => .error .typeError
  | "regex" => some fun value opts =>
      match opts with
      | .undef => .ok (prims.regexTest "" "" (jsToString value))
      | .val v => .ok (prims.regexTest (jsToString v) "" (jsToString value))
      | .fn f => .ok (prims.regexTest (prims.fnToString f) "" (jsToString value))
  | "custom" => some fun value opts =>
      match opts with
      | .fn f => .ok (f value)
      | _ => .error .typeError
  | _ => none

/-- `validators[typeName](value, options)`: indexing an unregistered name
yields `undefined`, and calling it throws a `TypeError`. -/
def validate (prims : JsPrims) (typeName : String) (value : JsVal)
    (options : JsOpt) : Except JsError Bool :=
  match validatorsLookup prims typeName with
  | some f => f value options
  | none => .error .typeError

/-- A field-type descriptor of the `expectedContent` schema, with all the
option names the endpoints.js documentation block declares (lines 15–97):
`values` (enum), `pattern` (regex), `validator` (custom), `minLength` /
`maxLength` (text), `min` / `max` (number). -/
structure FieldDescriptor where
  type : String
  values : JsOpt := .undef
  pattern : Option String := none
  validator : Option (JsVal → Bool) := none
  minLength : Option Int := none
  maxLength : Option Int := none
  min : Option Int := none
  max : Option Int := none

/-- Per-endpoint scenario configuration (`config:` block). -/
structure ScenarioConfig where
  vus : Option Int := none
  duration : Option String := none
  responseTime : Option Int := none
  target : Option Int := none
  thresholds : List (String × List String) := []

/-- A request-body descriptor. -/
structure BodyConfig where
  type : String
  content : JsVal
  contentType : Option String := none

/-- An endpoint descriptor from the registry (endpoints.js). -/
structure EndpointConfig where
  baseURL : Option String := none
  path : String
  method : String
  tags : List String := []
  config : Option ScenarioConfig := none
  headers : List (String × String) := []
  body : Option BodyConfig := none
  expectedStatus : Option Int := none
  expectedContent : Option (List (String × FieldDescriptor)) := none
  storeResponse : Option (List (String × String)) := none

/-- Global configuration content types (config.js `contentTypes`). -/
structure ContentTypes where
  json : String
  formData : String
  urlEncoded : String
  text : String

/-- Global default test configuration (config.js `defaultTestConfig`). -/
structure DefaultTestConfig where
  vus : Int
  duration : String
  responseTime : Int
  thresholds : List (String × List String)

/-- Global configuration (config.js `globalConfig`). -/
structure GlobalConfig where
  baseURL : String
  headers : List (String × String)
  defaultTestConfig : DefaultTestConfig
  slowRequestThreshold : Int
  contentTypes : ContentTypes

/-- The concrete `globalConfig` value of config.js. -/
def globalConfig : GlobalConfig :=
  { baseURL := "https://uat.openfinance.adcb.com"
    headers := [("Accept", "application/json")]
    defaultTestConfig :=
      { vus := 1
        duration := "30s"
        responseTime := 1000
        thresholds := [("http_req_failed", ["rate<0.01"]),
                       ("http_req_duration", ["p(95)<1000"])] }
    slowRequestThreshold := 1000
    contentTypes :=
      { json := "application/json"
        formData := "multipart/form-data"
        urlEncoded := "application/x-www-form-urlencoded"
        text := "text/plain" } }

/-- An HTTP response as the executor observes it. -/
structure Response where
  status : Int
  body : Option String

/-- `parseResponse` (main.js lines 138–147): a falsy body yields `null`; a
parse failure is caught, but the warning it logs reads `endpointConfig.path`
— when the caller passed no `endpointConfig`, that member access itself
throws a `TypeError` out of the catch block. -/
def parseResponse (response : Response) (endpointConfig : Option EndpointConfig) :
    Except JsError JsVal :=
  match response.body with
  | none => .ok .null
  | some b =>
    if b = "" then .ok .null
    else
      match jsonParse b.data with
      | some v => .ok v
      | none =>
        match endpointConfig with
        | some _ => .ok .null
        | none => .error .typeError

/-- `responseBody[field]`: property lookup on an object (duplicate JSON keys
resolve to the last occurrence, as `JSON.parse` does), `undefined` on
everything else.  Numeric index access into arrays/strings is not modelled
(no schema field names a numeric index). -/
def lookupField (v : JsVal) (field : String) : JsVal :=
  match v with
  | .obj kvs =>
    match kvs.reverse.find? (fun p => p.1 == field) with
    | some p => p.2
    | none => .undefined
  | _ => .undefined

/-- One multipart form entry: an opened file or a plain appended value. -/
inductive FormEntry where
  | file (contents : String)
  | plain (v : JsVal)

/-- A prepared request body, by `bodyConfig.type`. -/
inductive PreparedBody where
  | formData (entries : List (String × FormEntry))
  | urlEncoded (s : String)
  | raw (s : String)

/-- A metric/transport observation the executor makes, in program order. -/
inductive Event where
  /-- The HTTP call (`http.get` / `http.request`).  `http.get` passes no
  body even when one was prepared. -/
  | httpRequest (method url : String) (headers : List (String × String))
      (body : Option PreparedBody)
  | responseTimeAdd (duration : Int) (endpoint : String)
  | slowRequestsAdd (isSlow : Bool)
  | slowRequestDetailsAdd (duration : Int) (endpoint : String)
  | validationFailureAdd (field ftype : String)
  | checkReport (checks : List (String × Bool))
  | failureRateAdd (failed : Bool)

/-- Walk the expected-content schema (main.js lines 158–174): unknown
validator type records `"<field> validation" = false` and continues; a known
one is invoked with `responseBody[field]` and `validation.values`, recording
`"<field> is valid"` and a validation-failure metric on failure.  An
exception thrown by a validator propagates (nothing catches it). -/
def validateFields (prims : JsPrims) (responseBody : JsVal) :
    List (String × FieldDescriptor) →
    Except JsError (List (String × Bool) × List Event)
  | [] => .ok ([], [])
  | (field, validation) :: rest =>
    match validatorsLookup prims validation.type with
    | none =>
      match validateFields prims responseBody rest with
      | .ok (results, events) => .ok ((field ++ " validation", false) :: results, events)
      | .error e => .error e
    | some validator =>
      match validator (lookupField responseBody field) validation.values with
      | .error e => .error e
      | .ok isValid =>
        match validateFields prims responseBody rest with
        | .ok (results, events) =>
          .ok ((field ++ " is valid", isValid) :: results,
               (if isValid then [] else [.validationFailureAdd field validation.type]) ++ events)
        | .error e => .error e

/-- `validateResponseContent` (main.js lines 150–177).  Note the call site of
`parseResponse` at line 151 passes no `endpointConfig` argument. -/
def validateResponseContent (prims : JsPrims) (response : Response)
    (expectedContent : List (String × FieldDescriptor)) :
    Except JsError (List (String × Bool) × List Event) :=
  match parseResponse response none with
  | .error e => .error e
  | .ok responseBody =>
    if jsFalsy responseBody then .ok ([("response parsing", false)], [])
    else validateFields prims responseBody expectedContent

/-- `Object.entries` on the processed content: object members in order,
array elements under their decimal index, string characters under their
decimal index, nothing for other primitives. -/
def objEntries : JsVal → List (String × JsVal)
  | .obj kvs => kvs
  | .arr xs => xs.enum.map (fun p => (String.mk (natToChars p.1), p.2))
  | .str s => s.data.enum.map (fun p => (String.mk (natToChars p.1), JsVal.str (String.mk [p.2])))
  | _ => []

/-- `value?.type === 'file'` (main.js line 111). -/
def isFileEntry (v : JsVal) : Bool :=
  jsEq (lookupField v "type") (.str "file")

/-- `Object.entries(content).map(([k, v]) => k + "=" + encodeURIComponent(v)).join("&")`. -/
def urlEncodePairs (prims : JsPrims) (entries : List (String × JsVal)) : String :=
  String.intercalate "&" (entries.map (fun p => p.1 ++ "=" ++ prims.encodeURIComponent (jsToString p.2)))

/-- `prepareRequestBody` (main.js lines 92–135): substitute stored values into
the serialized content, then build the body for the declared type; the
`default` case throws `Unsupported body type`.  All errors are logged and
rethrown (the `catch` at line 131 re-throws), so they surface as
`Except.error` here.  `Object.entries(null)` in the form branches throws a
`TypeError`. -/
def prepareRequestBody (prims : JsPrims) (bodyConfig : Option BodyConfig)
    (storedData : List (String × JsVal)) : Except JsError (Option PreparedBody) :=
  match bodyConfig with
  | none => .ok none
  | some bc =>
    match substituteStored storedData bc.content with
    | .error e => .error e
    | .ok processedContent =>
      if bc.type = "form-data" then
        match processedContent with
        | .null => .error .typeError
        | .undefined => .error .typeError
        | pc => .ok (some (.formData ((objEntries pc).map (fun p =>
            (p.1, if isFileEntry p.2 then
                    FormEntry.file (prims.openFile (jsToString (lookupField p.2 "path")))
                  else FormEntry.plain p.2)))))
      else if bc.type = "x-www-form-urlencoded" then
        match processedContent with
        | .null => .error .typeError
        | .undefined => .error .typeError
        | pc => .ok (some (.urlEncoded (urlEncodePairs prims (objEntries pc))))
      else if bc.type = "raw" then
        match stringifyVal processedContent with
        | some cs => .ok (some (.raw (String.mk cs)))
        | none => .ok none
      else .error (.unsupportedBodyType bc.type)

/-- Object-spread style insert-or-overwrite into an association list. -/
def upsertAssoc {α : Type} (m : List (String × α)) (k : String) (v : α) :
    List (String × α) :=
  if m.any (fun (p : String × α) => p.1 == k) then
    m.map (fun (p : String × α) => if p.1 == k then (k, v) else p)
  else m ++ [(k, v)]

/-- `{ ...a, ...b }`: keys of `a` in order, overridden/extended by `b`. -/
def mergeHeaders (a b : List (String × String)) : List (String × String) :=
  b.foldl (fun acc p => upsertAssoc acc p.1 p.2) a

/-- The `Content-Type` adjustment of main.js lines 186–195: `raw` sets the
declared content type (falling back to the JSON type when it is absent or
empty), `x-www-form-urlencoded` sets the url-encoded type, `form-data` and
anything else leave the headers alone. -/
def applyBodyContentType (g : GlobalConfig) (body : Option BodyConfig)
    (headers : List (String × String)) : List (String × String) :=
  match body with
  | none => headers
  | some bc =>
    if bc.type = "raw" then
      upsertAssoc headers "Content-Type"
        (match bc.contentType with
         | some ct => if ct = "" then g.contentTypes.json else ct
         | none => g.contentTypes.json)
    else if bc.type = "x-www-form-urlencoded" then
      upsertAssoc headers "Content-Type" g.contentTypes.urlEncoded
    else headers

/-- The headers the executor sends: global defaults spread first, endpoint
headers override, then the body-driven `Content-Type` adjustment
(main.js lines 184–195).  No placeholder substitution happens here. -/
def buildHeaders (g : GlobalConfig) (cfg : EndpointConfig) : List (String × String) :=
  applyBodyContentType g cfg.body (mergeHeaders g.headers cfg.headers)

/-- `endpointConfig.baseURL || globalConfig.baseURL` (main.js line 181):
an absent or empty (falsy) override falls back to the global base URL. -/
def effectiveBaseURL (g : GlobalConfig) (cfg : EndpointConfig) : String :=
  match cfg.baseURL with
  | some b => if b = "" then g.baseURL else b
  | none => g.baseURL

/-- `endpointConfig.expectedStatus || 200` (main.js line 257): an absent or
zero (falsy) expected status falls back to 200. -/
def effectiveExpectedStatus (cfg : EndpointConfig) : Int :=
  match cfg.expectedStatus with
  | some s => if s = 0 then 200 else s
  | none => 200

/-- `endpointConfig.config?.responseTime || globalConfig.slowRequestThreshold`
(main.js lines 220 and 239): the endpoint threshold applies when declared and
non-zero (`0` is falsy, so it falls back too). -/
def slowThreshold (g : GlobalConfig) (cfg : EndpointConfig) : Int :=
  match cfg.config with
  | some sc =>
    match sc.responseTime with
    | some t => if t = 0 then g.slowRequestThreshold else t
    | none => g.slowRequestThreshold
  | none => g.slowRequestThreshold

/-- The slow classification of main.js line 220: strict greater-than against
the effective threshold. -/
def isSlowRequest (g : GlobalConfig) (cfg : EndpointConfig) (duration : Int) : Bool :=
  duration > slowThreshold g cfg

/-- A record appended to the shared `slowRequests` list (main.js lines
232–240).  The wall-clock timestamp field is not modelled. -/
structure SlowRequestRecord where
  endpoint : String
  duration : Int
  method : String
  url : String
  status : Int
  threshold : Int

/-- The run-scoped shared mutable state (`storedData`, `slowRequests`;
main.js lines 56–57). -/
structure RunState where
  storedData : List (String × JsVal)
  slowRequests : List SlowRequestRecord

/-- The store-response step (main.js lines 243–254): parse the response (this
call site passes `endpointConfig`, so a parse failure is caught and yields
`null`), and when the parsed body is truthy write
`storedData[key] = responseBody[path]` for every declared pair. -/
def storeResponseStep (cfg : EndpointConfig) (response : Response)
    (sd : List (String × JsVal)) : List (String × JsVal) :=
  match cfg.storeResponse with
  | none => sd
  | some pairs =>
    match parseResponse response (some cfg) with
    | .error _ => sd
    | .ok responseBody =>
      if jsFalsy responseBody then sd
      else pairs.foldl (fun acc kp => upsertAssoc acc kp.1 (lookupField responseBody kp.2)) sd

/-- The outcome of one `handleRequest` invocation: the shared state after it,
the observations it made in order, and the exception that escaped it, if
any (state mutations and emitted metrics made before a throw persist). -/
structure ExecResult where
  state : RunState
  events : List Event
  thrown : Option JsError

/-- `handleRequest` (main.js lines 180–269).  The HTTP transport and the
clock are supplied as inputs: `response` is what the call returns and
`duration` the measured elapsed milliseconds.  A body-preparation failure is
caught: it records one failed-request metric and returns without sending
(lines 202–211).  The final `sleep(1)` pacing is not modelled. -/
def handleRequest (prims : JsPrims) (g : GlobalConfig) (endpoint : String)
    (endpointConfig : EndpointConfig) (st : RunState) (response : Response)
    (duration : Int) : ExecResult :=
  let url := effectiveBaseURL g endpointConfig ++ endpointConfig.path
  let headers := buildHeaders g endpointConfig
  match prepareRequestBody prims endpointConfig.body st.storedData with
  | .error _ => { state := st, events := [.failureRateAdd true], thrown := none }
  | .ok body =>
    let reqEvent :=
      if endpointConfig.method = "GET" then
        Event.httpRequest "GET" url headers none
      else
        Event.httpRequest endpointConfig.method url headers body
    let isSlow := isSlowRequest g endpointConfig duration
    let timingEvents :=
      [Event.responseTimeAdd duration endpoint, Event.slowRequestsAdd isSlow] ++
      (if isSlow then [Event.slowRequestDetailsAdd duration endpoint] else [])
    let st1 :=
      if isSlow then
        { st with slowRequests := st.slowRequests ++
            [{ endpoint := endpoint, duration := duration,
               method := endpointConfig.method, url := url,
               status := response.status,
               threshold := slowThreshold g endpointConfig }] }
      else st
    let st2 := { st1 with storedData := storeResponseStep endpointConfig response st1.storedData }
    let baseChecks :=
      [("status is as expected", response.status == effectiveExpectedStatus endpointConfig),
       ("response time is within limits", !isSlow)]
    match endpointConfig.expectedContent with
    | none =>
      { state := st2
        events := reqEvent :: timingEvents ++
          [.checkReport baseChecks, .failureRateAdd (!(baseChecks.all (fun c => c.2)))]
        thrown := none }
    | some schema =>
      match validateResponseContent prims response schema with
      | .error e => { state := st2, events := reqEvent :: timingEvents, thrown := some e }
      | .ok (results, vevents) =>
        let checks := baseChecks ++ results
        { state := st2
          events := reqEvent :: timingEvents ++ vevents ++
            [.checkReport checks, .failureRateAdd (!(checks.all (fun c => c.2)))]
          thrown := none }

/-- One scheduling scenario emitted per selected endpoint (main.js lines
69–75): absent or falsy per-endpoint `vus`/`duration` fall back to the global
defaults. -/
structure Scenario where
  executor : String
  vus : Int
  duration : String
  exec : String
  env : List (String × String)

/-- Build the scenario for one endpoint. -/
def scenarioFor (g : GlobalConfig) (endpoint : String) (cfg : EndpointConfig) : Scenario :=
  { executor := "constant-vus"
    vus :=
      match cfg.config with
      | some sc => match sc.vus with
        | some v => if v = 0 then g.defaultTestConfig.vus else v
        | none => g.defaultTestConfig.vus
      | none => g.defaultTestConfig.vus
    duration :=
      match cfg.config with
      | some sc => match sc.duration with
        | some d => if d = "" then g.defaultTestConfig.duration else d
        | none => g.defaultTestConfig.duration
      | none => g.defaultTestConfig.duration
    exec := "default"
    env := [("SCENARIO", endpoint)] }

/-- `metric + "\x7bendpoint:" + name + "\x7d"`, the tagged threshold key. -/
def thresholdKey (metric endpoint : String) : String :=
  metric ++ "\x7bendpoint:" ++ endpoint ++ "\x7d"

/-- Per-endpoint threshold entries (main.js lines 77–85): a declared
truthy (non-zero) `responseTime` adds a tagged `http_req_duration` bound, and
each custom threshold entry is added under its tagged key. -/
def endpointThresholds (acc : List (String × List String)) (endpoint : String)
    (cfg : EndpointConfig) : List (String × List String) :=
  let acc1 :=
    match cfg.config with
    | some sc =>
      match sc.responseTime with
      | some t =>
        if t = 0 then acc
        else upsertAssoc acc (thresholdKey "http_req_duration" endpoint)
          ["p(95)<" ++ String.mk (intToChars t)]
      | none => acc
    | none => acc
  match cfg.config with
  | some sc => sc.thresholds.foldl
      (fun a p => upsertAssoc a (thresholdKey p.1 endpoint) p.2) acc1
  | none => acc1

/-- The scenario/threshold maps `buildOptions` returns. -/
structure BuiltOptions where
  scenarios : List (String × Scenario)
  thresholds : List (String × List String)

/-- `buildOptions` (main.js lines 60–89): filter the registry to the target
list when one is given (a JavaScript object registry has unique keys, so the
`scenarios[endpoint] = ...` assignments are modelled as one entry per
selected registry entry), and accumulate thresholds starting from the global
defaults. -/
def buildOptions (g : GlobalConfig) (endpoints : List (String × EndpointConfig))
    (targetEndpoints : Option (List String)) : BuiltOptions :=
  let endpointsToRun : List (String × EndpointConfig) :=
    match targetEndpoints with
    | some ts => endpoints.filter (fun p => ts.contains p.1)
    | none => endpoints
  { scenarios := endpointsToRun.map (fun p => (p.1, scenarioFor g p.1 p.2))
    thresholds := endpointsToRun.foldl (fun acc p => endpointThresholds acc p.1 p.2)
      g.defaultTestConfig.thresholds }

/-- The concrete `getToken` endpoint of endpoints.js, parameterised by the
`AUTH_TOKEN` environment value interpolated into its Authorization header. -/
def getTokenEndpoint (authToken : String) : EndpointConfig :=
  { baseURL := some "https://test.api.auth.adcb.com"
    path := "/oauth2/token"
    method := "POST"
    tags := ["token", "auth"]
    config := some { vus := some 2, duration := some "1m", target := some 50 }
    headers := [("Authorization", "Basic " ++ authToken)]
    body := some { type := "x-www-form-urlencoded"
                   content := .obj [("grant_type", .str "client_credentials")] }
    expectedStatus := some 200
    expectedContent := some
      [("access_token", { type := "text" }),
       ("expires_in", { type := "number" }),
       ("token_type", { type := "enum"
                        values := .val (.arr [.str "Basic", .str "Bearer", .str "JWT"]) })]
    storeResponse := some [("accessToken", "access_token")] }

/-- Is the head of the remaining input not a decimal digit (so a greedy digit
scan stops exactly at the serialized number's end)? -/
def headNotDigit : List Char → Bool
  | [] => true
  | c :: _ => !isDecDigit c

mutual
/-- Parser fuel adequate for a value (each constructor and each list element
costs one unit). -/
def jsize : JsVal → Nat
  | .arr xs => 1 + jsizeElems xs
  | .obj kvs => 1 + jsizeMembers kvs
  | _ => 1

/-- Fuel for an element list. -/
def jsizeElems : List JsVal → Nat
  | [] => 0
  | x :: xs => 1 + jsize x + jsizeElems xs

/-- Fuel for a member list. -/
def jsizeMembers : List (String × JsVal) → Nat
  | [] => 0
  | kv :: rest => 1 + jsize kv.2 + jsizeMembers rest
end

/-- Does the serialized form of the content contain a `$\x7bstored.KEY\x7d`
placeholder?  (`false` also for unserializable content.) -/
def contentPlaceholderKeys (content : JsVal) : List String :=
  match stringifyVal content with
  | some l => placeholderKeys l
  | none => []

/-- The headers of the first HTTP call among the observations, if any. -/
def sentHeaders : List Event → Option (List (String × String))
  | [] => none
  | .httpRequest _ _ headers _ :: _ => some headers
  | _ :: rest => sentHeaders rest

/-- How many HTTP calls the observations contain. -/
def sentRequestCount : List Event → Nat
  | [] => 0
  | .httpRequest _ _ _ _ :: rest => 1 + sentRequestCount rest
  | _ :: rest => sentRequestCount rest

theorem toNat_ofNat_valid (n : Nat) (h : n.isValidChar) : (Char.ofNat n).toNat = n := by
  simp [Char.ofNat, Char.ofNatAux, h, Char.toNat, UInt32.toNat, BitVec.toNat_ofNatLt]

theorem toNat_decDigitChar (d : Nat) (h : d < 10) : (decDigitChar d).toNat = 48 + d := by
  unfold decDigitChar
  exact toNat_ofNat_valid _ (Or.inl (by omega))

theorem isDecDigit_decDigitChar (d : Nat) (h : d < 10) : isDecDigit (decDigitChar d) = true := by
  simp [isDecDigit, toNat_decDigitChar d h]
  omega

theorem natToChars_ne_nil (n : Nat) : natToChars n ≠ [] := by
  rw [natToChars]
  split
  · simp
  · simp

theorem natToChars_digits (n : Nat) : ∀ c ∈ natToChars n, isDecDigit c = true := by
  induction n using Nat.strong_induction_on with
  | _ n ih =>
    rw [natToChars]
    split
    · intro c hc
      simp at hc
      subst hc
      exact isDecDigit_decDigitChar n (by omega)
    · intro c hc
      simp at hc
      rcases hc with hc | hc
      · exact ih (n / 10) (Nat.div_lt_self (by omega) (by omega)) c hc
      · subst hc
        exact isDecDigit_decDigitChar _ (Nat.mod_lt _ (by omega))

theorem digitsToNat_append_digit (xs : List Char) (c : Char) :
    digitsToNat (xs ++ [c]) = 10 * digitsToNat xs + (c.toNat - 48) := by
  unfold digitsToNat
  rw [List.foldl_append]
  simp [List.foldl]
  omega

theorem digitsToNat_natToChars (n : Nat) : digitsToNat (natToChars n) = n := by
  induction n using Nat.strong_induction_on with
  | _ n ih =>
    rw [natToChars]
    split
    · simp [digitsToNat, List.foldl, toNat_decDigitChar n (by omega)]
    · rw [digitsToNat_append_digit]
      rw [ih (n / 10) (Nat.div_lt_self (by omega) (by omega))]
      rw [toNat_decDigitChar _ (Nat.mod_lt _ (by omega))]
      omega

theorem takeWhile_digits_append (a rest : List Char)
    (ha : ∀ c ∈ a, isDecDigit c = true) (hr : headNotDigit rest = true) :
    (a ++ rest).takeWhile isDecDigit = a ∧ (a ++ rest).dropWhile isDecDigit = rest := by
  induction a with
  | nil =>
    simp only [List.nil_append]
    cases rest with
    | nil => simp
    | cons c t =>
      simp only [headNotDigit, Bool.not_eq_true'] at hr
      simp [List.takeWhile_cons, List.dropWhile_cons, hr]
  | cons c a ih =>
    have hc : isDecDigit c = true := ha c (by simp)
    have hrec := ih (fun x hx => ha x (by simp [hx]))
    simp [List.takeWhile_cons, List.dropWhile_cons, hc, hrec.1, hrec.2]

theorem isDecDigit_ne_minus (c : Char) (h : isDecDigit c = true) : c ≠ '-' := by
  intro hc
  subst hc
  simp [isDecDigit] at h

theorem parseNumber_intToChars (n : Int) (rest : List Char)
    (hr : headNotDigit rest = true) :
    parseNumber (intToChars n ++ rest) = some (n, rest) := by
  unfold intToChars
  split
  · next hneg =>
    have htw := takeWhile_digits_append (natToChars n.natAbs) rest
      (natToChars_digits _) hr
    simp only [List.cons_append, parseNumber, if_pos rfl]
    rw [htw.1, htw.2]
    have hne : (natToChars n.natAbs).isEmpty = false := by
      simp [List.isEmpty_iff, natToChars_ne_nil]
    simp only [hne, Bool.false_eq_true, if_false, ite_false, if_true,
      digitsToNat_natToChars, Option.some.injEq, Prod.mk.injEq]
    exact ⟨by omega, trivial⟩
  · next hpos =>
    have htw := takeWhile_digits_append (natToChars n.toNat) rest
      (natToChars_digits _) hr
    cases hnc : natToChars n.toNat with
    | nil => exact absurd hnc (natToChars_ne_nil _)
    | cons c a =>
      have hcd : isDecDigit c = true := by
        have := natToChars_digits n.toNat c
        rw [hnc] at this
        exact this (by simp)
      rw [hnc] at htw
      simp only [List.cons_append, parseNumber,
        if_neg (isDecDigit_ne_minus c hcd)]
      rw [show c :: (a ++ rest) = (c :: a) ++ rest from rfl, htw.1, htw.2]
      have hd : digitsToNat (c :: a) = n.toNat := by
        have := digitsToNat_natToChars n.toNat
        rw [hnc] at this
        exact this
      have hne : (c :: a).isEmpty = false := by simp
      simp only [hne, Bool.false_eq_true, if_false, ite_false, if_true, hd,
        Option.some.injEq, Prod.mk.injEq]
      exact ⟨by omega, trivial⟩

theorem hexVal_hexDigitChar (m : Nat) (h : m < 16) :
    hexVal (hexDigitChar m) = some m := by
  unfold hexDigitChar
  by_cases h10 : m < 10
  · rw [if_pos h10]
    have ht : (Char.ofNat (48 + m)).toNat = 48 + m :=
      toNat_ofNat_valid _ (Or.inl (by omega))
    simp [hexVal, ht]
    omega
  · rw [if_neg h10]
    have ht : (Char.ofNat (87 + m)).toNat = 87 + m :=
      toNat_ofNat_valid _ (Or.inl (by omega))
    have hlt : ¬(48 ≤ 87 + m ∧ 87 + m ≤ 57) := by omega
    simp [hexVal, ht, hlt]
    omega

theorem hexVal_zero : hexVal '0' = some 0 := by decide

theorem parseStringBody_quote (rest : List Char) :
    parseStringBody ('"' :: rest) = some ([], rest) := by
  rw [parseStringBody.eq_def]
  simp

theorem parseStringBody_named (e ec : Char) (tail s rest : List Char)
    (he : unescapeChar e = some ec) (hu : ¬e = 'u')
    (hrec : parseStringBody tail = some (s, rest)) :
    parseStringBody ('\\' :: e :: tail) = some (ec :: s, rest) := by
  rw [parseStringBody.eq_def]
  simp [he, hu, hrec]

theorem parseStringBody_hex (a b c2 d : Char) (tail s rest : List Char)
    (va vb vc vd : Nat)
    (ha : hexVal a = some va) (hb : hexVal b = some vb)
    (hc : hexVal c2 = some vc) (hd : hexVal d = some vd)
    (hrec : parseStringBody tail = some (s, rest)) :
    parseStringBody ('\\' :: 'u' :: a :: b :: c2 :: d :: tail) =
      some (Char.ofNat (((va * 16 + vb) * 16 + vc) * 16 + vd) :: s, rest) := by
  rw [parseStringBody.eq_def]
  simp [ha, hb, hc, hd, hrec]

theorem parseStringBody_plain (c : Char) (tail s rest : List Char)
    (h1 : ¬c = '"') (h2 : ¬c = '\\')
    (hrec : parseStringBody tail = some (s, rest)) :
    parseStringBody (c :: tail) = some (c :: s, rest) := by
  rw [parseStringBody.eq_def]
  simp [h1, h2, hrec]

theorem parseStringBody_escape (s rest : List Char) :
    parseStringBody (escapeList s ++ '"' :: rest) = some (s, rest) := by
  induction s with
  | nil => simpa [escapeList] using parseStringBody_quote rest
  | cons c s ih =>
    simp only [escapeList, List.append_assoc]
    by_cases h1 : c = '"'
    · subst h1
      exact parseStringBody_named _ _ _ _ _ (by decide) (by decide) ih
    · by_cases h2 : c = '\\'
      · subst h2
        exact parseStringBody_named _ _ _ _ _ (by decide) (by decide) ih
      · by_cases h3 : c = '\n'
        · subst h3
          exact parseStringBody_named _ _ _ _ _ (by decide) (by decide) ih
        · by_cases h4 : c = '\r'
          · subst h4
            exact parseStringBody_named _ _ _ _ _ (by decide) (by decide) ih
          · by_cases h5 : c = '\t'
            · subst h5
              exact parseStringBody_named _ _ _ _ _ (by decide) (by decide) ih
            · by_cases h6 : c = '\x08'
              · subst h6
                exact parseStringBody_named _ _ _ _ _ (by decide) (by decide) ih
              · by_cases h7 : c = '\x0c'
                · subst h7
                  exact parseStringBody_named _ _ _ _ _ (by decide) (by decide) ih
                · by_cases h8 : c.toNat < 32
                  · have e1 : hexVal (hexDigitChar (c.toNat / 16)) = some (c.toNat / 16) :=
                      hexVal_hexDigitChar _ (by omega)
                    have e2 : hexVal (hexDigitChar (c.toNat % 16)) = some (c.toNat % 16) :=
                      hexVal_hexDigitChar _ (by omega)
                    have hstep := parseStringBody_hex '0' '0' (hexDigitChar (c.toNat / 16))
                      (hexDigitChar (c.toNat % 16)) _ s rest 0 0 (c.toNat / 16) (c.toNat % 16)
                      hexVal_zero hexVal_zero e1 e2 ih
                    have hcode : ((0 * 16 + 0) * 16 + c.toNat / 16) * 16 + c.toNat % 16
                        = c.toNat := by omega
                    rw [hcode, Char.ofNat_toNat] at hstep
                    simpa [escapeChar, h1, h2, h3, h4, h5, h6, h7, h8] using hstep
                  · have hstep := parseStringBody_plain c _ s rest h1 h2 ih
                    simpa [escapeChar, h1, h2, h3, h4, h5, h6, h7, h8] using hstep

theorem isDecDigit_ne_delims (c : Char) (h : isDecDigit c = true) :
    c ≠ '"' ∧ c ≠ '[' ∧ c ≠ '{' ∧ c ≠ 't' ∧ c ≠ 'f' ∧ c ≠ 'n' ∧ c ≠ ']' ∧ c ≠ '}' := by
  refine ⟨?_, ?_, ?_, ?_, ?_, ?_, ?_, ?_⟩ <;>
    (rintro rfl; exact absurd h (by decide))

theorem natToChars_head (n : Nat) :
    ∃ c t, natToChars n = c :: t ∧ isDecDigit c = true := by
  cases hnc : natToChars n with
  | nil => exact absurd hnc (natToChars_ne_nil n)
  | cons c t =>
    refine ⟨c, t, rfl, ?_⟩
    have := natToChars_digits n c
    rw [hnc] at this
    exact this (by simp)

theorem serializable_stringify (v : JsVal) (h : serializable v = true) :
    ∃ cs, stringifyVal v = some cs := by
  cases v with
  | bool b => cases b <;> simp [stringifyVal]
  | undefined => simp [serializable] at h
  | _ => simp [stringifyVal]

theorem stringify_head_ne (v : JsVal) (cs : List Char)
    (hs : stringifyVal v = some cs) :
    ∃ c t, cs = c :: t ∧ c ≠ ']' ∧ c ≠ '}' := by
  cases v with
  | str s =>
    simp [stringifyVal, quoteChars] at hs
    exact ⟨'"', _, hs.symm, by decide, by decide⟩
  | num n =>
    simp [stringifyVal] at hs
    subst hs
    unfold intToChars
    split
    · exact ⟨'-', _, rfl, by decide, by decide⟩
    · obtain ⟨c, t, hct, hd⟩ := natToChars_head n.toNat
      rw [hct]
      have hne := isDecDigit_ne_delims c hd
      exact ⟨c, t, rfl, hne.2.2.2.2.2.2.1, hne.2.2.2.2.2.2.2⟩
  | bool b =>
    cases b <;> simp [stringifyVal] at hs <;> subst hs
    · exact ⟨'f', _, rfl, by decide, by decide⟩
    · exact ⟨'t', _, rfl, by decide, by decide⟩
  | null =>
    simp [stringifyVal] at hs
    subst hs
    exact ⟨'n', _, rfl, by decide, by decide⟩
  | undefined => simp [stringifyVal] at hs
  | arr xs =>
    simp [stringifyVal] at hs
    exact ⟨'[', _, hs.symm, by decide, by decide⟩
  | obj kvs =>
    simp [stringifyVal] at hs
    exact ⟨'{', _, hs.symm, by decide, by decide⟩

theorem jsize_pos (v : JsVal) : 1 ≤ jsize v := by
  cases v <;> simp [jsize]

theorem string_mk_data (s : String) : String.mk s.data = s := by
  cases s; rfl

theorem intToChars_head (n : Int) :
    ∃ c t, intToChars n = c :: t ∧ (isDecDigit c = true ∨ c = '-') := by
  unfold intToChars
  split
  · exact ⟨'-', _, rfl, Or.inr rfl⟩
  · obtain ⟨c, t, hct, hd⟩ := natToChars_head n.toNat
    exact ⟨c, t, hct, Or.inl hd⟩

theorem parseValStep_quote (pe : List Char → Option (List JsVal × List Char))
    (pm : List Char → Option (List (String × JsVal) × List Char)) (rest : List Char) :
    parseValStep pe pm ('"' :: rest) =
      (match parseStringBody rest with
       | some (cs, r) => some (.str (String.mk cs), r)
       | none => none) := rfl

theorem parseValStep_lbrack (pe : List Char → Option (List JsVal × List Char))
    (pm : List Char → Option (List (String × JsVal) × List Char)) (rest : List Char) :
    parseValStep pe pm ('[' :: rest) =
      (match rest with
       | ']' :: r => some (.arr [], r)
       | _ =>
         match pe rest with
         | some (xs, r) => some (.arr xs, r)
         | none => none) := rfl

theorem parseValStep_lbrace (pe : List Char → Option (List JsVal × List Char))
    (pm : List Char → Option (List (String × JsVal) × List Char)) (rest : List Char) :
    parseValStep pe pm ('{' :: rest) =
      (match rest with
       | '}' :: r => some (.obj [], r)
       | _ =>
         match pm rest with
         | some (kvs, r) => some (.obj kvs, r)
         | none => none) := rfl

theorem parseValStep_other (pe : List Char → Option (List JsVal × List Char))
    (pm : List Char → Option (List (String × JsVal) × List Char)) (c : Char)
    (rest : List Char) (h1 : ¬c = '"') (h2 : ¬c = '[') (h3 : ¬c = '{')
    (h4 : ¬c = 't') (h5 : ¬c = 'f') (h6 : ¬c = 'n') :
    parseValStep pe pm (c :: rest) =
      (match parseNumber (c :: rest) with
       | some (n, r) => some (.num n, r)
       | none => none) := by
  simp [parseValStep, h1, h2, h3, h4, h5, h6]

theorem headNotDigit_cons (c : Char) (rest : List Char)
    (h : isDecDigit c = false) : headNotDigit (c :: rest) = true := by
  simp [headNotDigit, h]

theorem joinComma_cons_cons (a : List Char) (L : List (List Char)) (hL : L ≠ []) :
    joinComma (a :: L) = a ++ ',' :: joinComma L := by
  cases L with
  | nil => exact absurd rfl hL
  | cons b M =>
    rw [joinComma]
    intro h
    exact absurd h (by simp)

theorem stringifyElems_cons (x : JsVal) (xs : List JsVal) (cs : List Char)
    (h : stringifyVal x = some cs) :
    stringifyElems (x :: xs) = cs :: stringifyElems xs := by
  rw [stringifyElems, h]

theorem stringifyMembers_cons (k : String) (v : JsVal) (kvs : List (String × JsVal))
    (cs : List Char) (h : stringifyVal v = some cs) :
    stringifyMembers ((k, v) :: kvs) = (quoteChars k ++ ':' :: cs) :: stringifyMembers kvs := by
  rw [stringifyMembers, h]

theorem stringifyElems_cons_ne_nil (x : JsVal) (xs : List JsVal) :
    stringifyElems (x :: xs) ≠ [] := by
  rw [stringifyElems]
  simp

theorem parse_stringify_all : ∀ fuel : Nat,
    (∀ v cs rest, serializable v = true → stringifyVal v = some cs →
      headNotDigit rest = true → jsize v ≤ fuel →
      parseVal fuel (cs ++ rest) = some (v, rest)) ∧
    (∀ xs rest, xs ≠ [] → serializable.serializableElems xs = true →
      jsizeElems xs ≤ fuel →
      parseElems fuel (joinComma (stringifyElems xs) ++ ']' :: rest) = some (xs, rest)) ∧
    (∀ kvs rest, kvs ≠ [] → serializable.serializableMembers kvs = true →
      jsizeMembers kvs ≤ fuel →
      parseMembers fuel (joinComma (stringifyMembers kvs) ++ '}' :: rest) = some (kvs, rest)) := by
  intro fuel
  induction fuel with
  | zero =>
    refine ⟨?_, ?_, ?_⟩
    · intro v cs rest _ _ _ hsz
      have := jsize_pos v
      omega
    · intro xs rest hne _ hsz
      cases xs with
      | nil => exact absurd rfl hne
      | cons x t => simp [jsizeElems] at hsz
    · intro kvs rest hne _ hsz
      cases kvs with
      | nil => exact absurd rfl hne
      | cons kv t => simp [jsizeMembers] at hsz
  | succ f ih =>
    obtain ⟨ihv, ihe, ihm⟩ := ih
    refine ⟨?_, ?_, ?_⟩
    · intro v cs rest hser hs hnd hsz
      rw [parseVal]
      cases v with
      | null =>
        simp only [stringifyVal, Option.some.injEq] at hs
        subst hs
        rfl
      | bool b =>
        cases b <;> simp only [stringifyVal, Option.some.injEq] at hs <;> subst hs <;> rfl
      | num n =>
        simp only [stringifyVal, Option.some.injEq] at hs
        subst hs
        obtain ⟨c, t, hct, hcd⟩ := intToChars_head n
        have hpn := parseNumber_intToChars n rest hnd
        rw [hct] at hpn ⊢
        have hc1 : ¬c = '"' := by
          rcases hcd with hd | hm
          · exact (isDecDigit_ne_delims c hd).1
          · subst hm; decide
        have hc2 : ¬c = '[' := by
          rcases hcd with hd | hm
          · exact (isDecDigit_ne_delims c hd).2.1
          · subst hm; decide
        have hc3 : ¬c = '{' := by
          rcases hcd with hd | hm
          · exact (isDecDigit_ne_delims c hd).2.2.1
          · subst hm; decide
        have hc4 : ¬c = 't' := by
          rcases hcd with hd | hm
          · exact (isDecDigit_ne_delims c hd).2.2.2.1
          · subst hm; decide
        have hc5 : ¬c = 'f' := by
          rcases hcd with hd | hm
          · exact (isDecDigit_ne_delims c hd).2.2.2.2.1
          · subst hm; decide
        have hc6 : ¬c = 'n' := by
          rcases hcd with hd | hm
          · exact (isDecDigit_ne_delims c hd).2.2.2.2.2.1
          · subst hm; decide
        simp only [List.cons_append] at hpn ⊢
        rw [parseValStep_other _ _ c _ hc1 hc2 hc3 hc4 hc5 hc6, hpn]
      | str s =>
        simp only [stringifyVal, quoteChars, Option.some.injEq] at hs
        subst hs
        have hps := parseStringBody_escape s.data rest
        simp only [List.cons_append, List.append_assoc, List.singleton_append,
            List.nil_append]
        rw [parseValStep_quote, hps]
      | undefined => simp [serializable] at hser
      | arr xs =>
        cases xs with
        | nil =>
          simp only [stringifyVal, stringifyElems, joinComma, Option.some.injEq] at hs
          subst hs
          rfl
        | cons x xs' =>
          simp only [stringifyVal, Option.some.injEq] at hs
          subst hs
          have hserE : serializable.serializableElems (x :: xs') = true := by
            simpa [serializable] using hser
          have hser2 : serializable x = true ∧
              serializable.serializableElems xs' = true := by
            simpa [serializable.serializableElems, Bool.and_eq_true] using hserE
          obtain ⟨ecs, hecs⟩ := serializable_stringify x hser2.1
          obtain ⟨c0, t0, hc0, hne1, hne2⟩ := stringify_head_ne x ecs hecs
          have hsz' : jsizeElems (x :: xs') ≤ f := by
            simp only [jsize] at hsz
            omega
          have helems := ihe (x :: xs') rest (by simp) hserE hsz'
          have hjoin : ∃ t1, joinComma (stringifyElems (x :: xs')) = c0 :: t1 := by
            cases xs' with
            | nil => exact ⟨t0, by simp [stringifyElems, hecs, joinComma, hc0]⟩
            | cons y ys =>
              refine ⟨t0 ++ ',' :: joinComma (stringifyElems (y :: ys)), ?_⟩
              simp [stringifyElems, hecs, joinComma, hc0]
          obtain ⟨t1, ht1⟩ := hjoin
          rw [ht1] at helems ⊢
          simp only [List.cons_append, List.append_assoc, List.singleton_append,
            List.nil_append]
          rw [parseValStep_lbrack]
          simp only [List.cons_append] at helems
          split
          · next heq =>
            exact absurd (List.cons.inj heq).1 hne1
          · rw [helems]
      | obj kvs =>
        cases kvs with
        | nil =>
          simp only [stringifyVal, stringifyMembers, joinComma, Option.some.injEq] at hs
          subst hs
          rfl
        | cons kv kvs' =>
          simp only [stringifyVal, Option.some.injEq] at hs
          subst hs
          have hserM : serializable.serializableMembers (kv :: kvs') = true := by
            simpa [serializable] using hser
          have hmembers := ihm (kv :: kvs') rest (by simp) hserM
            (by simp only [jsize] at hsz; omega)
          obtain ⟨k, v0⟩ := kv
          have hserv : serializable v0 = true := by
            have := hserM
            simp [serializable.serializableMembers, Bool.and_eq_true] at this
            exact this.1
          obtain ⟨cs2, hcs2⟩ := serializable_stringify v0 hserv
          have hsm : stringifyMembers ((k, v0) :: kvs') =
              (quoteChars k ++ ':' :: cs2) :: stringifyMembers kvs' := by
            simp [stringifyMembers, hcs2]
          have hjoin : ∃ t1, joinComma (stringifyMembers ((k, v0) :: kvs')) =
              '"' :: t1 := by
            rw [hsm]
            cases hL : stringifyMembers kvs' with
            | nil =>
              exact ⟨escapeList k.data ++ '"' :: ':' :: cs2,
                by simp [joinComma, quoteChars]⟩
            | cons a L =>
              exact ⟨(escapeList k.data ++ '"' :: ':' :: cs2) ++
                  ',' :: joinComma (a :: L),
                by simp [joinComma, quoteChars]⟩
          obtain ⟨t1, ht1⟩ := hjoin
          rw [ht1] at hmembers ⊢
          simp only [List.cons_append, List.append_assoc, List.singleton_append,
            List.nil_append]
          rw [parseValStep_lbrace]
          simp only [List.cons_append] at hmembers
          split
          · next heq =>
            exact absurd (List.cons.inj heq).1 (by decide)
          · rw [hmembers]
    · intro xs rest hne hser hsz
      cases xs with
      | nil => exact absurd rfl hne
      | cons x xs' =>
        rw [parseElems]
        have hser2 : serializable x = true ∧
            serializable.serializableElems xs' = true := by
          simpa [serializable.serializableElems, Bool.and_eq_true] using hser
        obtain ⟨ecs, hecs⟩ := serializable_stringify x hser2.1
        rw [stringifyElems_cons x xs' ecs hecs]
        cases xs' with
        | nil =>
          have hval := ihv x ecs (']' :: rest) hser2.1 hecs
            (headNotDigit_cons _ _ (by decide))
            (by simp [jsizeElems] at hsz; omega)
          rw [show stringifyElems ([] : List JsVal) = [] from rfl]
          rw [joinComma]
          rw [parseElemsStep, hval]
          simp
        | cons y ys =>
          have hval := ihv x ecs
            (',' :: (joinComma (stringifyElems (y :: ys)) ++ ']' :: rest))
            hser2.1 hecs (headNotDigit_cons _ _ (by decide))
            (by simp [jsizeElems] at hsz ⊢; omega)
          have htail := ihe (y :: ys) rest (by simp) hser2.2
            (by simp [jsizeElems] at hsz ⊢; omega)
          rw [joinComma_cons_cons _ _ (stringifyElems_cons_ne_nil y ys)]
          rw [List.append_assoc]
          simp only [List.cons_append]
          rw [parseElemsStep, hval]
          simp [htail]
    · intro kvs rest hne hser hsz
      cases kvs with
      | nil => exact absurd rfl hne
      | cons kv kvs' =>
        obtain ⟨k, v0⟩ := kv
        rw [parseMembers]
        have hser2 : serializable v0 = true ∧
            serializable.serializableMembers kvs' = true := by
          simpa [serializable.serializableMembers, Bool.and_eq_true] using hser
        obtain ⟨vcs, hvcs⟩ := serializable_stringify v0 hser2.1
        rw [stringifyMembers_cons k v0 kvs' vcs hvcs]
        cases kvs' with
        | nil =>
          have hval := ihv v0 vcs ('}' :: rest) hser2.1 hvcs
            (headNotDigit_cons _ _ (by decide))
            (by simp [jsizeMembers] at hsz; omega)
          have hkey := parseStringBody_escape k.data
            (':' :: (vcs ++ '}' :: rest))
          rw [show stringifyMembers ([] : List (String × JsVal)) = [] from rfl]
          rw [joinComma]
          simp only [quoteChars, List.cons_append, List.append_assoc,
            List.singleton_append, List.nil_append]
          rw [parseMembersStep, hkey]
          simp [hval, string_mk_data]
        | cons kv2 t2 =>
          obtain ⟨k2, v2⟩ := kv2
          have hserv2 : serializable v2 = true := by
            have := hser2.2
            simp [serializable.serializableMembers, Bool.and_eq_true] at this
            exact this.1
          obtain ⟨v2cs, hv2cs⟩ := serializable_stringify v2 hserv2
          have hmne : stringifyMembers ((k2, v2) :: t2) ≠ [] := by
            rw [stringifyMembers_cons k2 v2 t2 v2cs hv2cs]
            simp
          have hval := ihv v0 vcs
            (',' :: (joinComma (stringifyMembers ((k2, v2) :: t2)) ++ '}' :: rest))
            hser2.1 hvcs (headNotDigit_cons _ _ (by decide))
            (by simp [jsizeMembers] at hsz ⊢; omega)
          have htail := ihm ((k2, v2) :: t2) rest (by simp) hser2.2
            (by simp [jsizeMembers] at hsz ⊢; omega)
          have hkey := parseStringBody_escape k.data
            (':' :: (vcs ++ ',' :: (joinComma (stringifyMembers ((k2, v2) :: t2)) ++ '}' :: rest)))
          rw [joinComma_cons_cons _ _ hmne]
          simp only [quoteChars, List.cons_append, List.append_assoc,
            List.singleton_append, List.nil_append]
          rw [parseMembersStep, hkey]
          simp [hval, htail, string_mk_data]

theorem quoteChars_length (s : String) :
    (quoteChars s).length = (escapeList s.data).length + 2 := by
  simp [quoteChars]

theorem jsize_le_length : ∀ n : Nat,
    (∀ v cs, jsize v ≤ n → serializable v = true → stringifyVal v = some cs →
      jsize v ≤ cs.length) ∧
    (∀ xs, jsizeElems xs ≤ n → serializable.serializableElems xs = true →
      jsizeElems xs ≤ (joinComma (stringifyElems xs)).length + 1) ∧
    (∀ kvs, jsizeMembers kvs ≤ n → serializable.serializableMembers kvs = true →
      jsizeMembers kvs ≤ (joinComma (stringifyMembers kvs)).length + 1) := by
  intro n
  induction n with
  | zero =>
    refine ⟨?_, ?_, ?_⟩
    · intro v cs hsz _ _
      have := jsize_pos v
      omega
    · intro xs hsz _
      cases xs with
      | nil => simp [jsizeElems]
      | cons x t => simp [jsizeElems] at hsz
    · intro kvs hsz _
      cases kvs with
      | nil => simp [jsizeMembers]
      | cons kv t => simp [jsizeMembers] at hsz
  | succ m ih =>
    obtain ⟨ihv, ihe, ihm⟩ := ih
    refine ⟨?_, ?_, ?_⟩
    · intro v cs hsz hser hs
      cases v with
      | null =>
        simp only [stringifyVal, Option.some.injEq] at hs
        subst hs
        simp [jsize]
      | bool b =>
        cases b <;> simp only [stringifyVal, Option.some.injEq] at hs <;> subst hs <;>
          simp [jsize]
      | num k =>
        simp only [stringifyVal, Option.some.injEq] at hs
        subst hs
        obtain ⟨c, t, hct, _⟩ := intToChars_head k
        rw [hct]
        simp [jsize]
      | str s =>
        simp only [stringifyVal, Option.some.injEq] at hs
        subst hs
        simp [jsize, quoteChars_length]
      | undefined => simp [serializable] at hser
      | arr xs =>
        simp only [stringifyVal, Option.some.injEq] at hs
        subst hs
        have hserE : serializable.serializableElems xs = true := by
          simpa [serializable] using hser
        have hb := ihe xs (by simp only [jsize] at hsz; omega) hserE
        simp only [jsize, List.length_cons, List.length_append]
        simp only [List.length_cons, List.length_nil]
        omega
      | obj kvs =>
        simp only [stringifyVal, Option.some.injEq] at hs
        subst hs
        have hserM : serializable.serializableMembers kvs = true := by
          simpa [serializable] using hser
        have hb := ihm kvs (by simp only [jsize] at hsz; omega) hserM
        simp only [jsize, List.length_cons, List.length_append]
        simp only [List.length_cons, List.length_nil]
        omega
    · intro xs hsz hser
      cases xs with
      | nil => simp [jsizeElems]
      | cons x t =>
        have hser2 : serializable x = true ∧
            serializable.serializableElems t = true := by
          simpa [serializable.serializableElems, Bool.and_eq_true] using hser
        obtain ⟨cs, hcs⟩ := serializable_stringify x hser2.1
        have ha := ihv x cs (by simp [jsizeElems] at hsz ⊢; omega) hser2.1 hcs
        rw [stringifyElems_cons x t cs hcs]
        cases t with
        | nil =>
          rw [show stringifyElems ([] : List JsVal) = [] from rfl, joinComma]
          simp [jsizeElems, jsizeMembers] at hsz ⊢
          omega
        | cons y ys =>
          have hb := ihe (y :: ys) (by simp [jsizeElems] at hsz ⊢; omega) hser2.2
          rw [joinComma_cons_cons _ _ (stringifyElems_cons_ne_nil y ys)]
          simp only [jsizeElems, List.length_append, List.length_cons] at hb ⊢
          omega
    · intro kvs hsz hser
      cases kvs with
      | nil => simp [jsizeMembers]
      | cons kv t =>
        obtain ⟨k, v0⟩ := kv
        have hser2 : serializable v0 = true ∧
            serializable.serializableMembers t = true := by
          simpa [serializable.serializableMembers, Bool.and_eq_true] using hser
        obtain ⟨cs, hcs⟩ := serializable_stringify v0 hser2.1
        have ha := ihv v0 cs (by simp [jsizeMembers] at hsz ⊢; omega) hser2.1 hcs
        rw [stringifyMembers_cons k v0 t cs hcs]
        cases hmt : stringifyMembers t with
        | nil =>
          have hserMt : jsizeMembers t ≤ m := by
            simp [jsizeMembers] at hsz ⊢
            omega
          have hb := ihm t hserMt hser2.2
          rw [hmt, joinComma] at hb
          rw [joinComma]
          simp only [jsizeMembers, List.length_append, List.length_cons,
            List.length_nil, quoteChars_length] at hb ⊢
          omega
        | cons a L =>
          have hb := ihm t (by simp [jsizeMembers] at hsz ⊢; omega) hser2.2
          rw [hmt] at hb
          rw [joinComma_cons_cons _ _ (by simp)]
          simp only [jsizeMembers, List.length_append, List.length_cons,
            quoteChars_length] at hb ⊢
          omega

theorem jsonParse_stringify (v : JsVal) (cs : List Char)
    (hser : serializable v = true) (hs : stringifyVal v = some cs) :
    jsonParse cs = some v := by
  have hbound : jsize v ≤ cs.length + 1 := by
    have := (jsize_le_length (jsize v)).1 v cs le_rfl hser hs
    omega
  have hrt := (parse_stringify_all (cs.length + 1)).1 v cs [] hser hs rfl hbound
  rw [List.append_nil] at hrt
  unfold jsonParse
  rw [hrt]

theorem placeholderKeys_pos (c : Char) (rest k after : List Char)
    (hpre : placeholderHead.isPrefixOf (c :: rest) = true)
    (hfc : findClose ((c :: rest).drop 9) = some (k, after)) :
    placeholderKeys (c :: rest) = String.mk k :: placeholderKeys after := by
  rw [placeholderKeys.eq_def]
  dsimp only
  simp only [hpre, eq_self_iff_true, if_true]
  split
  · next k2 after2 hfc2 =>
    rw [hfc] at hfc2
    have h2 := Option.some.inj hfc2
    rw [(Prod.mk.injEq ..).mp h2 |>.1, (Prod.mk.injEq ..).mp h2 |>.2]
  · next hfc2 =>
    rw [hfc] at hfc2
    exact Option.noConfusion hfc2

theorem placeholderKeys_noclose (c : Char) (rest : List Char)
    (hpre : placeholderHead.isPrefixOf (c :: rest) = true)
    (hfc : findClose ((c :: rest).drop 9) = none) :
    placeholderKeys (c :: rest) = placeholderKeys rest := by
  rw [placeholderKeys.eq_def]
  dsimp only
  simp only [hpre, eq_self_iff_true, if_true]
  split
  · next k2 after2 hfc2 =>
    rw [hfc] at hfc2
    exact Option.noConfusion hfc2
  · rfl

theorem placeholderKeys_nopre (c : Char) (rest : List Char)
    (hpre : placeholderHead.isPrefixOf (c :: rest) = false) :
    placeholderKeys (c :: rest) = placeholderKeys rest := by
  rw [placeholderKeys.eq_def]
  dsimp only
  simp only [hpre, Bool.false_eq_true, if_false, ite_false]

theorem replaceStoredAux_found (st : List (String × JsVal)) (c : Char)
    (rest k after : List Char) (v : JsVal)
    (hpre : placeholderHead.isPrefixOf (c :: rest) = true)
    (hfc : findClose ((c :: rest).drop 9) = some (k, after))
    (hlk : lookupStored st (String.mk k) = some v) :
    replaceStoredAux st (c :: rest) =
      (match replaceStoredAux st after with
       | .ok t => .ok ((jsToString v).data ++ t)
       | .error e => .error e) := by
  rw [replaceStoredAux.eq_def]
  dsimp only
  simp only [hpre, eq_self_iff_true, if_true]
  split
  · next k2 after2 hfc2 =>
    rw [hfc] at hfc2
    obtain ⟨hk, ha⟩ := (Prod.mk.injEq ..).mp (Option.some.inj hfc2)
    subst hk
    subst ha
    rw [hlk]
  · next hfc2 =>
    rw [hfc] at hfc2
    exact Option.noConfusion hfc2

theorem replaceStoredAux_missing_here (st : List (String × JsVal)) (c : Char)
    (rest k after : List Char)
    (hpre : placeholderHead.isPrefixOf (c :: rest) = true)
    (hfc : findClose ((c :: rest).drop 9) = some (k, after))
    (hlk : lookupStored st (String.mk k) = none) :
    replaceStoredAux st (c :: rest) = .error (.missingStoredKey (String.mk k)) := by
  rw [replaceStoredAux.eq_def]
  dsimp only
  simp only [hpre, eq_self_iff_true, if_true]
  split
  · next k2 after2 hfc2 =>
    rw [hfc] at hfc2
    obtain ⟨hk, ha⟩ := (Prod.mk.injEq ..).mp (Option.some.inj hfc2)
    subst hk
    subst ha
    rw [hlk]
  · next hfc2 =>
    rw [hfc] at hfc2
    exact Option.noConfusion hfc2

theorem replaceStoredAux_noclose (st : List (String × JsVal)) (c : Char)
    (rest : List Char)
    (hpre : placeholderHead.isPrefixOf (c :: rest) = true)
    (hfc : findClose ((c :: rest).drop 9) = none) :
    replaceStoredAux st (c :: rest) =
      (match replaceStoredAux st rest with
       | .ok t => .ok (c :: t)
       | .error e => .error e) := by
  rw [replaceStoredAux.eq_def]
  dsimp only
  simp only [hpre, eq_self_iff_true, if_true]
  split
  · next k2 after2 hfc2 =>
    rw [hfc] at hfc2
    exact Option.noConfusion hfc2
  · rfl

theorem replaceStoredAux_nopre (st : List (String × JsVal)) (c : Char)
    (rest : List Char)
    (hpre : placeholderHead.isPrefixOf (c :: rest) = false) :
    replaceStoredAux st (c :: rest) =
      (match replaceStoredAux st rest with
       | .ok t => .ok (c :: t)
       | .error e => .error e) := by
  rw [replaceStoredAux.eq_def]
  dsimp only
  simp only [hpre, Bool.false_eq_true, if_false, ite_false]

theorem replaceStoredAux_nil (st : List (String × JsVal)) :
    replaceStoredAux st [] = .ok [] := by
  rw [replaceStoredAux.eq_def]

theorem placeholderKeys_nil : placeholderKeys [] = [] := by
  rw [placeholderKeys.eq_def]

theorem replaceStoredAux_id (st : List (String × JsVal)) :
    ∀ n l, l.length ≤ n → placeholderKeys l = [] →
      replaceStoredAux st l = .ok l := by
  intro n
  induction n with
  | zero =>
    intro l hl _
    cases l with
    | nil => exact replaceStoredAux_nil st
    | cons c rest => simp at hl
  | succ m ihm =>
    intro l hl hpk
    cases l with
    | nil => exact replaceStoredAux_nil st
    | cons c rest =>
      by_cases hpre : placeholderHead.isPrefixOf (c :: rest) = true
      · cases hfc : findClose ((c :: rest).drop 9) with
        | some p =>
          obtain ⟨k, after⟩ := p
          rw [placeholderKeys_pos c rest k after hpre hfc] at hpk
          exact absurd hpk (by simp)
        | none =>
          rw [placeholderKeys_noclose c rest hpre hfc] at hpk
          rw [replaceStoredAux_noclose st c rest hpre hfc]
          rw [ihm rest (by simp at hl; omega) hpk]
      · rw [placeholderKeys_nopre c rest (Bool.not_eq_true _ ▸ Bool.of_not_eq_true hpre)] at hpk
        rw [replaceStoredAux_nopre st c rest (Bool.not_eq_true _ ▸ Bool.of_not_eq_true hpre)]
        rw [ihm rest (by simp at hl; omega) hpk]

theorem replaceStoredAux_missing (st : List (String × JsVal)) :
    ∀ n l, l.length ≤ n →
      (∃ k, k ∈ placeholderKeys l ∧ lookupStored st k = none) →
      ∃ k2, lookupStored st k2 = none ∧
        replaceStoredAux st l = .error (.missingStoredKey k2) := by
  intro n
  induction n with
  | zero =>
    intro l hl hk
    cases l with
    | nil =>
      obtain ⟨k, hmem, _⟩ := hk
      rw [placeholderKeys_nil] at hmem
      exact absurd hmem (by simp)
    | cons c rest => simp at hl
  | succ m ihm =>
    intro l hl hk
    cases l with
    | nil =>
      obtain ⟨k, hmem, _⟩ := hk
      rw [placeholderKeys_nil] at hmem
      exact absurd hmem (by simp)
    | cons c rest =>
      obtain ⟨k, hmem, hnone⟩ := hk
      by_cases hpre : placeholderHead.isPrefixOf (c :: rest) = true
      · cases hfc : findClose ((c :: rest).drop 9) with
        | some p =>
          obtain ⟨k0, after⟩ := p
          have hafter : after.length ≤ m := by
            have h1 := findClose_length _ _ _ hfc
            rw [List.length_drop] at h1
            simp only [List.length_cons] at h1 hl
            omega
          rw [placeholderKeys_pos c rest k0 after hpre hfc] at hmem
          cases hlk : lookupStored st (String.mk k0) with
          | none =>
            exact ⟨String.mk k0, hlk,
              replaceStoredAux_missing_here st c rest k0 after hpre hfc hlk⟩
          | some v =>
            have hmem2 : k ∈ placeholderKeys after := by
              rcases List.mem_cons.mp hmem with hk0 | htail
              · exfalso
                rw [hk0] at hnone
                rw [hnone] at hlk
                exact Option.noConfusion hlk
              · exact htail
            obtain ⟨k2, hk2none, hk2err⟩ := ihm after hafter ⟨k, hmem2, hnone⟩
            refine ⟨k2, hk2none, ?_⟩
            rw [replaceStoredAux_found st c rest k0 after v hpre hfc hlk]
            rw [hk2err]
        | none =>
          rw [placeholderKeys_noclose c rest hpre hfc] at hmem
          obtain ⟨k2, hk2none, hk2err⟩ :=
            ihm rest (by simp at hl; omega) ⟨k, hmem, hnone⟩
          refine ⟨k2, hk2none, ?_⟩
          rw [replaceStoredAux_noclose st c rest hpre hfc]
          rw [hk2err]
      · rw [placeholderKeys_nopre c rest (Bool.not_eq_true _ ▸ Bool.of_not_eq_true hpre)] at hmem
        obtain ⟨k2, hk2none, hk2err⟩ :=
          ihm rest (by simp at hl; omega) ⟨k, hmem, hnone⟩
        refine ⟨k2, hk2none, ?_⟩
        rw [replaceStoredAux_nopre st c rest (Bool.not_eq_true _ ▸ Bool.of_not_eq_true hpre)]
        rw [hk2err]

theorem substituteStored_id (sd : List (String × JsVal)) (content : JsVal)
    (hser : serializable content = true)
    (hnp : contentPlaceholderKeys content = []) :
    substituteStored sd content = .ok content := by
  obtain ⟨cs, hcs⟩ := serializable_stringify content hser
  unfold substituteStored
  rw [hcs]
  dsimp only
  unfold contentPlaceholderKeys at hnp
  rw [hcs] at hnp
  dsimp only at hnp
  rw [replaceStoredAux_id sd cs.length cs le_rfl hnp]
  dsimp only
  rw [jsonParse_stringify content cs hser hcs]

theorem substituteStored_missing (sd : List (String × JsVal)) (content : JsVal)
    (k : String) (hmem : k ∈ contentPlaceholderKeys content)
    (hnone : lookupStored sd k = none) :
    ∃ k2, lookupStored sd k2 = none ∧
      substituteStored sd content = .error (.missingStoredKey k2) := by
  unfold contentPlaceholderKeys at hmem
  cases hcs : stringifyVal content with
  | none =>
    rw [hcs] at hmem
    dsimp only at hmem
    exact absurd hmem (by simp)
  | some cs =>
    rw [hcs] at hmem
    dsimp only at hmem
    obtain ⟨k2, hk2none, hk2err⟩ :=
      replaceStoredAux_missing sd cs.length cs le_rfl ⟨k, hmem, hnone⟩
    refine ⟨k2, hk2none, ?_⟩
    unfold substituteStored
    rw [hcs]
    dsimp only
    rw [hk2err]

theorem prepareRequestBody_missing (prims : JsPrims) (bc : BodyConfig)
    (sd : List (String × JsVal)) (k : String)
    (hmem : k ∈ contentPlaceholderKeys bc.content)
    (hnone : lookupStored sd k = none) :
    ∃ k2, lookupStored sd k2 = none ∧
      prepareRequestBody prims (some bc) sd = .error (.missingStoredKey k2) := by
  obtain ⟨k2, hk2none, hk2err⟩ := substituteStored_missing sd bc.content k hmem hnone
  refine ⟨k2, hk2none, ?_⟩
  unfold prepareRequestBody
  dsimp only
  rw [hk2err]

theorem handleRequest_prepFail (prims : JsPrims) (g : GlobalConfig)
    (endpoint : String) (cfg : EndpointConfig) (st : RunState)
    (response : Response) (duration : Int) (e : JsError)
    (hfail : prepareRequestBody prims cfg.body st.storedData = .error e) :
    handleRequest prims g endpoint cfg st response duration =
      { state := st, events := [.failureRateAdd true], thrown := none } := by
  unfold handleRequest
  rw [hfail]

theorem placeholderKeys_no_dollar :
    ∀ n l, l.length ≤ n → (∀ c ∈ l, ¬c = '$') → placeholderKeys l = [] := by
  intro n
  induction n with
  | zero =>
    intro l hl _
    cases l with
    | nil => exact placeholderKeys_nil
    | cons c rest => simp at hl
  | succ m ihm =>
    intro l hl hc
    cases l with
    | nil => exact placeholderKeys_nil
    | cons c rest =>
      have hcd : ¬c = '$' := hc c (by simp)
      have hpre : placeholderHead.isPrefixOf (c :: rest) = false := by
        rw [show placeholderHead = '$' :: "\x7bstored.".data from rfl]
        simp only [List.isPrefixOf, Bool.and_eq_false_iff]
        left
        simp only [beq_eq_false_iff_ne, ne_eq]
        intro h
        exact hcd h.symm
      rw [placeholderKeys_nopre c rest hpre]
      exact ihm rest (by simp at hl; omega) (fun c2 hc2 => hc c2 (by simp [hc2]))

/-- C1. The claim says `validateResponseContent` turns every unparseable
payload (empty or non-JSON body) into the single failing result
`"response parsing"` without raising.  The empty-body half holds, but on a
non-JSON body the catch block of `parseResponse` (main.js line 144) reads
`endpointConfig.path` while `validateResponseContent`'s call site (line 151)
passed no `endpointConfig`, so a `TypeError` escapes the validation step.
The third conjunct shows the same parse failure is handled gracefully when
the argument is supplied (as the store-response call site does), exhibiting
the missing argument as the slip. -/
theorem C1_nonjson_body_throws_typeError :
    validateResponseContent trivPrims { status := 200, body := some "not json" } [] =
      .error .typeError ∧
    validateResponseContent trivPrims { status := 200, body := some "" } [] =
      .ok ([("response parsing", false)], []) ∧
    parseResponse { status := 200, body := some "not json" }
      (some (getTokenEndpoint "tok")) = .ok .null :=
  ⟨rfl, rfl, rfl⟩

/-- C2. A `$\x7bstored.KEY\x7d` placeholder in the body content whose key
is absent from stored data makes body preparation fail with the
missing-stored-key error; `handleRequest` then records one failed-request
metric and returns with the state unchanged, no HTTP request among its
observations and no prepared body produced. -/
theorem C2_missing_stored_key_aborts (prims : JsPrims) (g : GlobalConfig)
    (endpoint : String) (cfg : EndpointConfig) (st : RunState)
    (response : Response) (duration : Int) (bc : BodyConfig) (k : String)
    (hbody : cfg.body = some bc)
    (hmem : k ∈ contentPlaceholderKeys bc.content)
    (hnone : lookupStored st.storedData k = none) :
    (∃ k2, lookupStored st.storedData k2 = none ∧
      prepareRequestBody prims cfg.body st.storedData =
        .error (.missingStoredKey k2)) ∧
    handleRequest prims g endpoint cfg st response duration =
      { state := st, events := [.failureRateAdd true], thrown := none } := by
  obtain ⟨k2, hk2, herr⟩ :=
    prepareRequestBody_missing prims bc st.storedData k hmem hnone
  have herr2 : prepareRequestBody prims cfg.body st.storedData =
      .error (.missingStoredKey k2) := by
    rw [hbody]
    exact herr
  exact ⟨⟨k2, hk2, herr2⟩,
    handleRequest_prepFail prims g endpoint cfg st response duration _ herr2⟩

/-- Witness for C2 at a concrete input: a raw body whose content is the
single string `"$\x7bstored.nope\x7d"` with empty stored data. -/
theorem C2_missing_stored_key_aborts_witness :
    ("nope" ∈ contentPlaceholderKeys (JsVal.str "$\x7bstored.nope\x7d") ∧
     lookupStored ([] : List (String × JsVal)) "nope" = none) ∧
    handleRequest trivPrims globalConfig "ep"
      { path := "/x", method := "POST",
        body := some { type := "raw", content := .str "$\x7bstored.nope\x7d" } }
      { storedData := [], slowRequests := [] }
      { status := 200, body := some "" } 0 =
      { state := { storedData := [], slowRequests := [] },
        events := [.failureRateAdd true], thrown := none } := by
  have h1 : placeholderKeys "\"$\x7bstored.nope\x7d\"".data =
      placeholderKeys "$\x7bstored.nope\x7d\"".data :=
    placeholderKeys_nopre '"' "$\x7bstored.nope\x7d\"".data (by decide)
  have h2 : placeholderKeys "$\x7bstored.nope\x7d\"".data =
      "nope" :: placeholderKeys ['"'] :=
    placeholderKeys_pos '$' "\x7bstored.nope\x7d\"".data "nope".data ['"']
      (by decide) (by decide)
  have hmem : "nope" ∈ contentPlaceholderKeys (JsVal.str "$\x7bstored.nope\x7d") := by
    have h0 : contentPlaceholderKeys (JsVal.str "$\x7bstored.nope\x7d") =
        placeholderKeys "\"$\x7bstored.nope\x7d\"".data := rfl
    rw [h0, h1, h2]
    exact List.mem_cons_self _ _
  exact ⟨⟨hmem, rfl⟩,
    (C2_missing_stored_key_aborts trivPrims globalConfig "ep" _
      { storedData := [], slowRequests := [] } { status := 200, body := some "" } 0
      _ "nope" rfl hmem rfl).2⟩

/-- C3 counterexample. The claim says a header value containing
`$\x7bstored.KEY\x7d` with `KEY` present in stored data is sent with the
stored value substituted.  At this concrete input the key `accessToken` is
present (bound to `"abc123"`), yet the executor issues the request with the
placeholder text verbatim in the Authorization header — no substitution is
applied to headers. -/
theorem C3_header_not_substituted_counterexample :
    sentHeaders (handleRequest trivPrims globalConfig "ep"
        { path := "/y", method := "GET",
          headers := [("Authorization", "$\x7bstored.accessToken\x7d")] }
        { storedData := [("accessToken", .str "abc123")], slowRequests := [] }
        { status := 200, body := some "" } 10).events =
      some [("Accept", "application/json"),
            ("Authorization", "$\x7bstored.accessToken\x7d")] ∧
    lookupStored [("accessToken", JsVal.str "abc123")] "accessToken" =
      some (.str "abc123") ∧
    ("$\x7bstored.accessToken\x7d" : String) ≠ "abc123" :=
  ⟨rfl, rfl, by decide⟩

/-- C3 (amended). Placeholder substitution is applied only to the request
body content; the headers the executor sends are exactly the merged
global/endpoint headers after the body-driven `Content-Type` adjustment,
verbatim — independent of the stored data, even when a header value contains
a placeholder whose key is present. -/
theorem C3_headers_sent_verbatim (prims : JsPrims) (g : GlobalConfig)
    (endpoint : String) (cfg : EndpointConfig) (st : RunState)
    (response : Response) (duration : Int) (b : Option PreparedBody)
    (hprep : prepareRequestBody prims cfg.body st.storedData = .ok b) :
    sentHeaders (handleRequest prims g endpoint cfg st response duration).events =
      some (buildHeaders g cfg) := by
  unfold handleRequest
  rw [hprep]
  dsimp only
  by_cases hm : cfg.method = "GET"
  · simp only [hm, if_pos rfl]
    cases cfg.expectedContent with
    | none => rfl
    | some schema =>
      dsimp only
      cases validateResponseContent prims response schema with
      | error e => rfl
      | ok p => rfl
  · simp only [hm, Bool.false_eq_true, if_false, ite_false]
    cases cfg.expectedContent with
    | none => rfl
    | some schema =>
      dsimp only
      cases validateResponseContent prims response schema with
      | error e => rfl
      | ok p => rfl

/-- Witness for C3 (amended) at a concrete input. -/
theorem C3_headers_sent_verbatim_witness :
    prepareRequestBody trivPrims
      ({ path := "/y", method := "GET",
         headers := [("Authorization", "$\x7bstored.accessToken\x7d")] } :
        EndpointConfig).body
      ({ storedData := [("accessToken", JsVal.str "abc123")], slowRequests := [] } :
        RunState).storedData = .ok none ∧
    sentHeaders (handleRequest trivPrims globalConfig "ep"
        { path := "/y", method := "GET",
          headers := [("Authorization", "$\x7bstored.accessToken\x7d")] }
        { storedData := [("accessToken", .str "abc123")], slowRequests := [] }
        { status := 200, body := some "" } 10).events =
      some (buildHeaders globalConfig
        { path := "/y", method := "GET",
          headers := [("Authorization", "$\x7bstored.accessToken\x7d")] }) :=
  ⟨rfl, C3_headers_sent_verbatim trivPrims globalConfig "ep" _ _ _ 10 none rfl⟩

/-- C4. The response validator invokes the selected predicate with the
descriptor's `values` property as the options argument, so the result of
validating a field never depends on the documented `pattern`, `validator`,
`minLength`/`maxLength` or `min`/`max` options (first conjunct: two
descriptors agreeing on `type` and `values` validate identically).
Consequently a `regex` descriptor's `pattern` is never passed — the regex
predicate receives `undefined` and tests the match-everything
`RegExp(undefined)` (second conjunct) — and a `custom` descriptor's
`validator` function is never passed — calling the `undefined` option throws
a `TypeError` (third conjunct). -/
theorem C4_validator_options_taken_from_values (prims : JsPrims) (body v : JsVal)
    (field ty : String) (vals : JsOpt) (p p' : Option String)
    (fn fn' : Option (JsVal → Bool)) (mnl mxl mn mx mnl' mxl' mn' mx' : Option Int) :
    validateFields prims body [(field, ⟨ty, vals, p, fn, mnl, mxl, mn, mx⟩)] =
      validateFields prims body [(field, ⟨ty, vals, p', fn', mnl', mxl', mn', mx'⟩)] ∧
    validate prims "regex" v .undef = .ok (prims.regexTest "" "" (jsToString v)) ∧
    validate prims "custom" v .undef = .error .typeError :=
  ⟨rfl, rfl, rfl⟩

/-- C5. The claim (and the schema documentation in endpoints.js) says
`minLength`/`maxLength` and `min`/`max` bounds are enforced by the
response-validation path.  They are not: at this input the field `name`
declares `minLength := 2`, the response value is the one-character string
`"a"`, and validation still reports the field valid. -/
theorem C5_minLength_not_enforced :
    validateResponseContent trivPrims
      { status := 200, body := some "\x7b\"name\":\"a\"\x7d" }
      [("name", { type := "text", minLength := some 2 })] =
      .ok ([("name is valid", true)], []) := by
  have hjson : jsonParse "\x7b\"name\":\"a\"\x7d".data =
      some (.obj [("name", .str "a")]) :=
    jsonParse_stringify (.obj [("name", .str "a")]) _ rfl rfl
  unfold validateResponseContent parseResponse
  dsimp only
  rw [if_neg (by decide), hjson]
  rfl

/-- C6 counterexample. The claim says the slow boundary is strict
greater-than against the endpoint's configured response-time threshold, with
fallback only "when the endpoint declares none": so with a declared
threshold of `0`, a duration of `0 + 1 = 1` must be classified slow.  But
`\|\|` treats the declared `0` as falsy, the effective threshold falls back
to the global `1000`, and the code classifies duration `1` as not slow. -/
theorem C6_zero_threshold_counterexample :
    ({ path := "/z", method := "GET", config := some { responseTime := some 0 } } :
        EndpointConfig).config = some { responseTime := some 0 } ∧
    slowThreshold globalConfig
      { path := "/z", method := "GET", config := some { responseTime := some 0 } } =
      1000 ∧
    isSlowRequest globalConfig
      { path := "/z", method := "GET", config := some { responseTime := some 0 } }
      (0 + 1) = false :=
  ⟨rfl, rfl, by decide⟩

/-- C6 (amended). Slow classification is strict greater-than against the
endpoint's declared response-time threshold, falling back to the global
slow-request threshold when the endpoint declares none **or declares the
falsy value 0**: for a declared non-zero threshold `t`, duration `t` is not
slow and `t + 1` is slow; with no declared threshold the same strict
boundary holds at the global threshold; a declared `0` yields the global
threshold. -/
theorem C6_slow_boundary_strict (g : GlobalConfig) (cfg : EndpointConfig) :
    (∀ sc t, cfg.config = some sc → sc.responseTime = some t → t ≠ 0 →
      isSlowRequest g cfg t = false ∧ isSlowRequest g cfg (t + 1) = true) ∧
    (∀ sc, cfg.config = some sc → sc.responseTime = none →
      isSlowRequest g cfg g.slowRequestThreshold = false ∧
      isSlowRequest g cfg (g.slowRequestThreshold + 1) = true) ∧
    (cfg.config = none →
      isSlowRequest g cfg g.slowRequestThreshold = false ∧
      isSlowRequest g cfg (g.slowRequestThreshold + 1) = true) ∧
    (∀ sc, cfg.config = some sc → sc.responseTime = some 0 →
      slowThreshold g cfg = g.slowRequestThreshold) := by
  refine ⟨?_, ?_, ?_, ?_⟩
  · intro sc t hc hrt ht
    unfold isSlowRequest slowThreshold
    rw [hc]
    dsimp only
    rw [hrt]
    dsimp only
    rw [if_neg ht]
    refine ⟨?_, ?_⟩
    · simp only [decide_eq_false_iff_not]
      omega
    · simp only [decide_eq_true_eq]
      omega
  · intro sc hc hrt
    unfold isSlowRequest slowThreshold
    rw [hc]
    dsimp only
    rw [hrt]
    refine ⟨?_, ?_⟩
    · simp only [decide_eq_false_iff_not]
      omega
    · simp only [decide_eq_true_eq]
      omega
  · intro hc
    unfold isSlowRequest slowThreshold
    rw [hc]
    refine ⟨?_, ?_⟩
    · simp only [decide_eq_false_iff_not]
      omega
    · simp only [decide_eq_true_eq]
      omega
  · intro sc hc hrt
    unfold slowThreshold
    rw [hc]
    dsimp only
    rw [hrt]
    rfl

/-- Witness for C6 (amended) at concrete endpoints: one declaring a
threshold of 5, one declaring none, one declaring 0. -/
theorem C6_slow_boundary_strict_witness :
    (isSlowRequest globalConfig
        { path := "/a", method := "GET", config := some { responseTime := some 5 } }
        5 = false ∧
     isSlowRequest globalConfig
        { path := "/a", method := "GET", config := some { responseTime := some 5 } }
        (5 + 1) = true) ∧
    (isSlowRequest globalConfig { path := "/b", method := "GET" }
        globalConfig.slowRequestThreshold = false ∧
     isSlowRequest globalConfig { path := "/b", method := "GET" }
        (globalConfig.slowRequestThreshold + 1) = true) ∧
    slowThreshold globalConfig
      { path := "/c", method := "GET", config := some { responseTime := some 0 } } =
      globalConfig.slowRequestThreshold :=
  ⟨(C6_slow_boundary_strict globalConfig _).1 { responseTime := some 5 } 5 rfl rfl
      (by decide),
   (C6_slow_boundary_strict globalConfig _).2.2.1 rfl,
   (C6_slow_boundary_strict globalConfig _).2.2.2 { responseTime := some 0 } rfl rfl⟩

/-- C7. With a target-endpoint filter, the scenario map's keys are
exactly the registry endpoints named in the filter, in registry order
(first conjunct syntactically, second as a membership characterisation);
with no filter there is one scenario per registry entry. -/
theorem C7_scenario_keys_filter (g : GlobalConfig)
    (endpoints : List (String × EndpointConfig)) (ts : List String) :
    ((buildOptions g endpoints (some ts)).scenarios.map Prod.fst =
      (endpoints.filter (fun p => ts.contains p.1)).map Prod.fst) ∧
    (∀ k, k ∈ (buildOptions g endpoints (some ts)).scenarios.map Prod.fst ↔
      (k ∈ endpoints.map Prod.fst ∧ ts.contains k = true)) ∧
    ((buildOptions g endpoints none).scenarios.map Prod.fst =
      endpoints.map Prod.fst) := by
  have hmap : ∀ l : List (String × EndpointConfig),
      (l.map (fun p => (p.1, scenarioFor g p.1 p.2))).map Prod.fst =
        l.map Prod.fst := by
    intro l
    induction l with
    | nil => rfl
    | cons p t ih => simp [ih]
  refine ⟨?_, ?_, ?_⟩
  · exact hmap (endpoints.filter (fun p => ts.contains p.1))
  · intro k
    rw [show (buildOptions g endpoints (some ts)).scenarios =
        (endpoints.filter (fun p => ts.contains p.1)).map
          (fun p => (p.1, scenarioFor g p.1 p.2)) from rfl]
    rw [hmap]
    constructor
    · intro hk
      obtain ⟨p, hpmem, hpk⟩ := List.mem_map.mp hk
      have hpf := List.mem_filter.mp hpmem
      subst hpk
      exact ⟨List.mem_map.mpr ⟨p, hpf.1, rfl⟩, hpf.2⟩
    · rintro ⟨hk, hcont⟩
      obtain ⟨p, hpmem, hpk⟩ := List.mem_map.mp hk
      subst hpk
      exact List.mem_map.mpr ⟨p, List.mem_filter.mpr ⟨hpmem, hcont⟩, rfl⟩
  · exact hmap endpoints

/-- C8. Template substitution on a JSON-serializable content structure
whose serialized form contains no `$\x7bstored.KEY\x7d` placeholder returns
the content deeply equal to the input: the serialize→replace→deserialize
pipeline is the identity (numbers and booleans included, as `JsVal`
equality is structural). -/
theorem C8_no_placeholder_roundtrip (sd : List (String × JsVal)) (content : JsVal)
    (hser : serializable content = true)
    (hnp : contentPlaceholderKeys content = []) :
    substituteStored sd content = .ok content :=
  substituteStored_id sd content hser hnp

/-- Witness for C8 at a concrete content structure. -/
theorem C8_no_placeholder_roundtrip_witness :
    serializable (JsVal.obj [("a", .str "x"), ("b", .bool true)]) = true ∧
    contentPlaceholderKeys (JsVal.obj [("a", .str "x"), ("b", .bool true)]) = [] ∧
    substituteStored [("k", JsVal.str "v")]
      (JsVal.obj [("a", .str "x"), ("b", .bool true)]) =
      .ok (JsVal.obj [("a", .str "x"), ("b", .bool true)]) := by
  have hnp : contentPlaceholderKeys (JsVal.obj [("a", .str "x"), ("b", .bool true)]) =
      [] := by
    have h0 : contentPlaceholderKeys (JsVal.obj [("a", .str "x"), ("b", .bool true)]) =
        placeholderKeys "\x7b\"a\":\"x\",\"b\":true\x7d".data := rfl
    rw [h0]
    exact placeholderKeys_no_dollar "\x7b\"a\":\"x\",\"b\":true\x7d".data.length _
      le_rfl (by decide)
  exact ⟨rfl, hnp, C8_no_placeholder_roundtrip _ _ rfl hnp⟩

/-- C9. When body preparation fails, the executor invocation terminates
after recording the failed-request metric, with the shared state exactly as
before: the stored-data mapping and the slow-request record sequence are
unchanged, the only observation is the single failed-request metric, and no
exception escapes. -/
theorem C9_prep_failure_leaves_state_unchanged (prims : JsPrims) (g : GlobalConfig)
    (endpoint : String) (cfg : EndpointConfig) (st : RunState)
    (response : Response) (duration : Int) (e : JsError)
    (hfail : prepareRequestBody prims cfg.body st.storedData = .error e) :
    (handleRequest prims g endpoint cfg st response duration).state.storedData =
      st.storedData ∧
    (handleRequest prims g endpoint cfg st response duration).state.slowRequests =
      st.slowRequests ∧
    (handleRequest prims g endpoint cfg st response duration).events =
      [.failureRateAdd true] ∧
    (handleRequest prims g endpoint cfg st response duration).thrown = none := by
  rw [handleRequest_prepFail prims g endpoint cfg st response duration e hfail]
  exact ⟨rfl, rfl, rfl, rfl⟩

/-- Witness for C9 at a concrete input (unsupported body type, another
body-preparation failure mode). -/
theorem C9_prep_failure_leaves_state_unchanged_witness :
    prepareRequestBody trivPrims
      (some { type := "yaml", content := JsVal.obj [] })
      ([] : List (String × JsVal)) = .error (.unsupportedBodyType "yaml") ∧
    (handleRequest trivPrims globalConfig "ep"
      { path := "/x", method := "POST",
        body := some { type := "yaml", content := JsVal.obj [] } }
      { storedData := [], slowRequests := [] }
      { status := 200, body := some "" } 0).events = [.failureRateAdd true] := by
  have hfail : prepareRequestBody trivPrims
      (some { type := "yaml", content := JsVal.obj [] })
      ([] : List (String × JsVal)) = .error (.unsupportedBodyType "yaml") := by
    unfold prepareRequestBody
    dsimp only
    rw [substituteStored_id [] (JsVal.obj []) rfl
      (by
        have h0 : contentPlaceholderKeys (JsVal.obj []) =
            placeholderKeys "\x7b\x7d".data := rfl
        rw [h0]
        exact placeholderKeys_no_dollar 2 _ (by decide) (by decide))]
    rfl
  exact ⟨hfail,
    (C9_prep_failure_leaves_state_unchanged trivPrims globalConfig "ep" _
      { storedData := [], slowRequests := [] } { status := 200, body := some "" } 0
      _ hfail).2.2.1⟩

/-- C10. The `enum` validator is not total over missing options: invoked
with `undefined` options (no allowed-values array supplied), it throws a
`TypeError` (`allowedValues.includes` on `undefined`) instead of returning a
boolean — for every value, hence in particular for some input. -/
theorem C10_enum_undefined_options_throws (prims : JsPrims) (v : JsVal) :
    validate prims "enum" v .undef = .error .typeError := rfl
